import Mathlib

set_option maxRecDepth 100000

/-!
Verification development for the serial capture tool
`tools/capture_monitor_to_excel.py`.

The development embeds, as executable Lean definitions:
  * the data-row grammar `ROW_PATTERN` and `parse_row` (lines 12-50 of the
    source), as a deterministic maximal-munch parser over `List Char`.  The
    Python regex is unanchored on the right and every repetition is followed
    by an atom that cannot overlap it (after a digit run the pattern needs
    `.`, whitespace or `,`; after a whitespace run it needs `,`, `-` or a
    digit), so greedy matching with backtracking coincides with maximal
    munch.  Python's `\d` and `\s` classes are restricted to their ASCII
    parts (the device emits ASCII), and `float`/`int` conversions are
    modelled exactly over `ℚ`/`ℤ`/`ℕ`.
  * the tare handshake `run_tare_before_monitor` (lines 53-86), as a fold
    over the list of decoded, stripped lines.
  * the capture loop of `capture_monitor_session` (lines 89-152), as a step
    function on an explicit state, driven by a list of per-iteration inputs:
    the wall-clock values read by the three `time.time()` call sites and the
    (decoded, stripped) result of `ser.readline()` (`none` = empty read).
    Wall-clock times are modelled as rationals.  The run result additionally
    records, as ghost data, how often each of the two stop-command write
    sites fired and at which iteration each row was appended.
-/

/-! ### Character classes (ASCII parts of Python's regex classes) -/

/-- ASCII part of Python's `\s` class: space, tab, newline, carriage return,
vertical tab, form feed. -/
def wsChar (c : Char) : Bool :=
  c = ' ' || c = '\t' || c = '\n' || c = '\r' || c = '\x0b' || c = '\x0c'

/-- The class `[0-9]` (also the ASCII part of Python's `\d`). -/
def digitChar (c : Char) : Bool :=
  c.isDigit

/-! ### Numeric values of matched groups (`int`, `float` of the source,
with `float` modelled exactly over `ℚ`) -/

/-- Value of one decimal digit character. -/
def digVal (c : Char) : ℕ :=
  c.toNat - 48

/-- Value of a decimal digit string, as `int(...)` computes it. -/
def natVal (ds : List Char) : ℕ :=
  ds.foldl (fun a c => 10 * a + digVal c) 0

/-- Value of the fractional digit string `fs`, i.e. `0.fs`. -/
def fracVal (fs : List Char) : ℚ :=
  (natVal fs : ℚ) / (10 : ℚ) ^ fs.length

/-- Value of `d.f` (an unsigned decimal literal); `f = []` means no
fractional part. -/
def udecVal (d f : List Char) : ℚ :=
  (natVal d : ℚ) + fracVal f

/-- Value of an optionally negated digit string, as `int(...)`. -/
def intVal (neg : Bool) (d : List Char) : ℤ :=
  if neg then -(natVal d : ℤ) else (natVal d : ℤ)

/-- Value of an optionally negated decimal literal, as `float(...)`. -/
def sdecVal (neg : Bool) (d f : List Char) : ℚ :=
  if neg then -(udecVal d f) else udecVal d f

/-! ### The row grammar: a maximal-munch parser equivalent to `ROW_PATTERN` -/

/-- The atom `\s*`: drop leading whitespace. -/
def skipWs (cs : List Char) : List Char :=
  cs.dropWhile wsChar

/-- The atom `[0-9]+` (equally `\d+` in our ASCII model): the maximal leading digit
run, which must be nonempty. -/
def pDigits (cs : List Char) : Option (List Char × List Char) :=
  if (cs.takeWhile digitChar).isEmpty then none
  else some (cs.takeWhile digitChar, cs.dropWhile digitChar)

/-- The group `[0-9]+(?:\.[0-9]+)?`: digits with an optional fractional part.  When a
dot is not followed by at least one digit the optional group matches empty
and the dot is left in the remainder, exactly as the regex backtracks. -/
def pUDec (cs : List Char) : Option ((List Char × List Char) × List Char) :=
  match pDigits cs with
  | none => none
  | some (d, r) =>
    match r with
    | c :: r2 =>
      if c = '.' then
        match pDigits r2 with
        | some (f, r3) => some ((d, f), r3)
        | none => some ((d, []), r)
      else some ((d, []), r)
    | [] => some ((d, []), r)

/-- The separator `\s*,\s*` between two fields. -/
def pComma (cs : List Char) : Option (List Char) :=
  match skipWs cs with
  | c :: r => if c = ',' then some (skipWs r) else none
  | [] => none

/-- The atom `-?`: an optional minus sign. -/
def pSign (cs : List Char) : Bool × List Char :=
  match cs with
  | c :: r => if c = '-' then (true, r) else (false, cs)
  | [] => (false, cs)

/-- The group `-?\d+`: an optionally signed integer group, with its `int(...)` value. -/
def pSInt (cs : List Char) : Option (ℤ × List Char) :=
  match pDigits (pSign cs).2 with
  | none => none
  | some (d, r2) => some (intVal (pSign cs).1 d, r2)

/-- The group `-?\d+(?:\.\d+)?`: an optionally signed decimal group, with its
`float(...)` value. -/
def pSDec (cs : List Char) : Option (ℚ × List Char) :=
  match pUDec (pSign cs).2 with
  | none => none
  | some (df, r2) => some (sdecVal (pSign cs).1 df.1 df.2, r2)

/-- The record `parse_row` builds from the seven matched groups. -/
structure DataRow where
  elapsed_s : ℚ
  sample_ms : ℕ
  raw_adc : ℤ
  avg_20 : ℤ
  filtered_20 : ℤ
  zeroed_adc : ℤ
  strain_uE : ℚ
deriving DecidableEq, Repr

/-- Matching `ROW_PATTERN` followed by the group conversions of `parse_row`,
over a character list.  The pattern is anchored on the left (`re.match`)
and unanchored on the right: any remainder after the seventh group is
accepted and discarded. -/
def parseRowL (cs : List Char) : Option DataRow :=
  match pUDec (skipWs cs) with
  | none => none
  | some (g1, r1) =>
  match pComma r1 with
  | none => none
  | some r1b =>
  match pDigits r1b with
  | none => none
  | some (g2, r2) =>
  match pComma r2 with
  | none => none
  | some r2b =>
  match pSInt r2b with
  | none => none
  | some (g3, r3) =>
  match pComma r3 with
  | none => none
  | some r3b =>
  match pSInt r3b with
  | none => none
  | some (g4, r4) =>
  match pComma r4 with
  | none => none
  | some r4b =>
  match pSInt r4b with
  | none => none
  | some (g5, r5) =>
  match pComma r5 with
  | none => none
  | some r5b =>
  match pSInt r5b with
  | none => none
  | some (g6, r6) =>
  match pComma r6 with
  | none => none
  | some r6b =>
  match pSDec r6b with
  | none => none
  | some (g7, _) =>
    some ⟨udecVal g1.1 g1.2, natVal g2, g3, g4, g5, g6, g7⟩

/-- The function `parse_row` of the source. -/
def parse_row (s : String) : Option DataRow :=
  parseRowL s.toList

/-! ### Substring containment (Python's `in` on `str`) -/

/-- Does `s` start with `pat`? -/
def beginsWith : List Char → List Char → Bool
  | [], _ => true
  | _ :: _, [] => false
  | a :: as, b :: bs => a = b && beginsWith as bs

/-- Does `pat` occur as a contiguous substring? -/
def hasSubL (pat : List Char) : List Char → Bool
  | [] => beginsWith pat []
  | c :: rest => beginsWith pat (c :: rest) || hasSubL pat rest

/-- Python's `pat in s` on strings. -/
def containsB (pat s : String) : Bool :=
  hasSubL pat.toList s.toList

/-! ### Protocol marker strings (source lines 75-85, 130, 146) -/

def tareBannerStr : String := "=== TARING STRAIN GAUGE ==="

def tareSuccessStr : String := "Strain gauge zeroed successfully!"

def tareFailureStr : String := "Failed to zero strain gauge!"

def tareCloseStr : String := "==========================="

def sessionStartStr : String := "[M_SESSION_START]"

def sessionEndStr : String := "[M_SESSION_END]"

def monitorStoppedStr : String := "Monitoring stopped. Collected"

/-- The end-of-session test of source line 146. -/
def sessionEndB (l : String) : Bool :=
  containsB sessionEndStr l || containsB monitorStoppedStr l

example : parse_row "0.10,100,512,510,509,3,1.25" =
    some ⟨1/10, 100, 512, 510, 509, 3, 5/4⟩ := by with_unfolding_all decide

example : parse_row "hello" = none := by decide

example : parse_row " 1 , 2 ,-3, 4, -5 , 6 , -7.5" =
    some ⟨1, 2, -3, 4, -5, 6, -15/2⟩ := by with_unfolding_all decide

example : parse_row "1.,2,3,4,5,6,7" = none := by decide

example : containsB sessionEndStr "xx[M_SESSION_END]yy" = true := by decide

/-! ### The tare handshake (`run_tare_before_monitor`, source lines 53-86)

The loop is driven by the successive results of `ser.readline()`; we model
the stream as the list of decoded, stripped lines (an empty read or a line
that strips to empty leaves the state unchanged, so it is modelled by the
empty string).  The wall-clock timeout check is the loop's only other
exit; a run that exhausts the list without a terminal outcome is still
polling, reported as `pending` (it would eventually raise `TareTimeout`). -/

/-- Outcome of the tare handshake. -/
inductive TareOut where
  | success
  | tareFailed
  | endedWithoutResult
  | pending
deriving DecidableEq, Repr

/-- One iteration of the tare loop on a decoded, stripped line: first the
banner flag is updated (line 75), then success (78), failure (82) and
banner-close (85) are tested in the source's order.  Returns the updated
`saw_tare_banner` flag and the terminal outcome, if any. -/
def tareStep (sawB : Bool) (line : String) : Bool × Option TareOut :=
  if line = "" then (sawB, none)
  else if containsB tareSuccessStr line then
    (sawB || containsB tareBannerStr line, some .success)
  else if containsB tareFailureStr line then
    (sawB || containsB tareBannerStr line, some .tareFailed)
  else if (sawB || containsB tareBannerStr line) && containsB tareCloseStr line then
    (sawB || containsB tareBannerStr line, some .endedWithoutResult)
  else (sawB || containsB tareBannerStr line, none)

/-- The tare read loop from a given `saw_tare_banner` state. -/
def runTareAux (sawB : Bool) : List String → TareOut
  | [] => .pending
  | l :: ls =>
    match tareStep sawB l with
    | (_, some o) => o
    | (sawB2, none) => runTareAux sawB2 ls

/-- The function `run_tare_before_monitor` on the list of decoded, stripped lines the
device sends after the `z` command (`saw_tare_banner` starts false). -/
def run_tare_before_monitor (lines : List String) : TareOut :=
  runTareAux false lines

example : run_tare_before_monitor
    ["=== TARING STRAIN GAUGE ===", "Strain gauge zeroed successfully!"] = .success := by decide

example : run_tare_before_monitor
    ["=== TARING STRAIN GAUGE ===", "==========================="] = .endedWithoutResult := by
  decide

example : run_tare_before_monitor ["==========================="] = .pending := by decide

/-! ### The capture loop (`capture_monitor_session`, source lines 89-152)

One loop iteration reads the wall clock at up to three sites: the timeout
check of line 111, the `monitor_start_wall = time.time()` of line 132 and
the duration check of line 140.  A `LoopInput` supplies the values those
calls would return in that iteration, together with the result of
`ser.readline()` (`none` for an empty read), decoded and stripped. -/

/-- The arguments of `capture_monitor_session` that the loop reads, plus
`start_wall` (line 108).  `duration = none` models `--duration` absent. -/
structure CaptureCfg where
  duration : Option ℚ
  timeout : ℚ
  startWall : ℚ
deriving DecidableEq, Repr

/-- The observable inputs of one loop iteration. -/
structure LoopInput where
  tCheck : ℚ
  read : Option String
  tMark : ℚ
  tDur : ℚ
deriving DecidableEq, Repr

/-- The mutable state of the capture loop (lines 90-93). -/
structure CaptureState where
  rows : List DataRow
  collecting : Bool
  sentStop : Bool
  monitorStartWall : Option ℚ
deriving DecidableEq, Repr

/-- The initial state: `rows = []`, `collecting = False`, `sent_stop = False`,
`monitor_start_wall = None`. -/
def initState : CaptureState :=
  ⟨[], false, false, none⟩

/-- Result of one loop iteration: the new state, whether the loop exited
(`break`), and ghost observations: whether the hard-timeout write site
(line 113) fired, whether the soft-duration write site (line 141) fired,
and the row appended this iteration, if any. -/
structure StepOut where
  s : CaptureState
  exit : Bool
  hardStop : Bool
  softStop : Bool
  appended : Option DataRow
deriving DecidableEq, Repr

/-- Lines 130-132: on a session-start marker, set `collecting` and record
`monitor_start_wall` (a repeated marker resets the clock, as in the
source). -/
def markPhase (s : CaptureState) (inp : LoopInput) (line : String) : CaptureState :=
  if containsB sessionStartStr line then
    { s with collecting := true, monitorStartWall := some inp.tMark }
  else s

/-- Lines 135-137: append the parsed row, if any. -/
def appendRow (s : CaptureState) (parsed : Option DataRow) : CaptureState :=
  match parsed with
  | some r => { s with rows := s.rows ++ [r] }
  | none => s

/-- Lines 139-140: the soft-duration deadline test. -/
def softFireB (cfg : CaptureCfg) (s : CaptureState) (inp : LoopInput) : Bool :=
  match cfg.duration, s.monitorStartWall with
  | some d, some m => !s.sentStop && decide (inp.tDur - m ≥ d)
  | _, _ => false

/-- Lines 130-147: marker detection, row parsing and appending, the
soft-duration deadline, and the end-of-session test, in source order. -/
def processLine (cfg : CaptureCfg) (s : CaptureState) (inp : LoopInput)
    (line : String) : StepOut :=
  let s1 := markPhase s inp line
  if s1.collecting then
    let parsed := parse_row line
    let s2 := appendRow s1 parsed
    let soft := softFireB cfg s2 inp
    let s3 := if soft then { s2 with sentStop := true } else s2
    ⟨s3, sessionEndB line, false, soft, parsed⟩
  else ⟨s1, false, false, false, none⟩

/-- Lines 120-147: the read and everything after it.  `hard` records
whether the hard-timeout write site fired at the top of this iteration. -/
def readPhase (cfg : CaptureCfg) (s : CaptureState) (inp : LoopInput)
    (hard : Bool) : StepOut :=
  match inp.read with
  | none => ⟨s, false, hard, false, none⟩
  | some line =>
    if line = "" then ⟨s, false, hard, false, none⟩
    else
      let o := processLine cfg s inp line
      ⟨o.s, o.exit, hard, o.softStop, o.appended⟩

/-- One full iteration of the `while True` loop (lines 110-147), starting
with the timeout check of line 111. -/
def captureStep (cfg : CaptureCfg) (s : CaptureState) (inp : LoopInput) : StepOut :=
  if cfg.timeout > 0 ∧ inp.tCheck - cfg.startWall > cfg.timeout then
    if s.collecting && !s.sentStop then
      readPhase cfg { s with sentStop := true } inp true
    else
      ⟨s, true, false, false, none⟩
  else
    readPhase cfg s inp false

/-- Result of running the loop on a finite sequence of iteration inputs:
the final state, whether the loop exited by `break`, how many iterations
were consumed, how often each stop-command write site fired, and every
appended row tagged with the (0-based) index of the iteration that
appended it. -/
structure RunOut where
  s : CaptureState
  exited : Bool
  steps : ℕ
  hardStops : ℕ
  softStops : ℕ
  appends : List (ℕ × DataRow)
deriving DecidableEq, Repr

/-- Run the capture loop from state `s` over the inputs in order.  If the
list is exhausted without a `break` the loop is still running (`exited =
false`); the loop itself has no other way to stop. -/
def captureRunAux (cfg : CaptureCfg) (s : CaptureState) :
    List LoopInput → RunOut
  | [] => ⟨s, false, 0, 0, 0, []⟩
  | inp :: rest =>
    let o := captureStep cfg s inp
    let app : List (ℕ × DataRow) := match o.appended with
      | some r => [(0, r)]
      | none => []
    if o.exit then ⟨o.s, true, 1, o.hardStop.toNat, o.softStop.toNat, app⟩
    else
      let t := captureRunAux cfg o.s rest
      ⟨t.s, t.exited, t.steps + 1, o.hardStop.toNat + t.hardStops,
        o.softStop.toNat + t.softStops,
        app ++ t.appends.map (fun q => (q.1 + 1, q.2))⟩

/-- The capture loop from its initial state (lines 90-93, 110). -/
def captureRun (cfg : CaptureCfg) (inputs : List LoopInput) : RunOut :=
  captureRunAux cfg initState inputs

/-- The session-level error of the modelled fragment: zero rows collected
(the `RuntimeError` of lines 149-152). -/
inductive CaptureErr where
  | emptySession
deriving DecidableEq, Repr

/-- The function `capture_monitor_session` after the read loop: reject an empty `rows`
list (lines 149-152), otherwise hand the collected rows (in arrival
order) to the report stage. -/
def capture_monitor_session (cfg : CaptureCfg) (inputs : List LoopInput) :
    Except CaptureErr (List DataRow) :=
  let out := captureRun cfg inputs
  if out.s.rows = [] then .error .emptySession else .ok out.s.rows

example : (captureRun ⟨none, 0, 0⟩
    [⟨0, some "[M_SESSION_START]", 1, 1⟩,
     ⟨0, some "0.10,100,512,510,509,3,1.25", 1, 1⟩,
     ⟨0, some "[M_SESSION_END]", 1, 1⟩]).exited = true := by
  with_unfolding_all decide

example : (captureRun ⟨none, 0, 0⟩
    [⟨0, some "[M_SESSION_START]", 1, 1⟩,
     ⟨0, some "0.10,100,512,510,509,3,1.25", 1, 1⟩,
     ⟨0, some "[M_SESSION_END]", 1, 1⟩]).s.rows =
      [⟨1/10, 100, 512, 510, 509, 3, 5/4⟩] := by
  with_unfolding_all decide

/-! ### Stop-command accounting (claim C1) -/

/-- How many further stop commands the loop may still write: one while
`sent_stop` is false, none afterwards. -/
def stopPot (s : CaptureState) : ℕ :=
  if s.sentStop then 0 else 1

lemma markPhase_sentStop (s : CaptureState) (inp : LoopInput) (line : String) :
    (markPhase s inp line).sentStop = s.sentStop := by
  unfold markPhase; split <;> rfl

lemma markPhase_rows (s : CaptureState) (inp : LoopInput) (line : String) :
    (markPhase s inp line).rows = s.rows := by
  unfold markPhase; split <;> rfl

lemma appendRow_sentStop (s : CaptureState) (p : Option DataRow) :
    (appendRow s p).sentStop = s.sentStop := by
  cases p <;> rfl

lemma appendRow_collecting (s : CaptureState) (p : Option DataRow) :
    (appendRow s p).collecting = s.collecting := by
  cases p <;> rfl

lemma softFireB_sentStop (cfg : CaptureCfg) (s : CaptureState) (inp : LoopInput)
    (h : softFireB cfg s inp = true) : s.sentStop = false := by
  unfold softFireB at h
  rcases hd : cfg.duration with - | d <;> rcases hm : s.monitorStartWall with - | m <;>
    rw [hd, hm] at h <;> simp at h
  exact h.1

lemma processLine_stops (cfg : CaptureCfg) (s : CaptureState) (inp : LoopInput)
    (line : String) :
    (processLine cfg s inp line).hardStop = false ∧
      (processLine cfg s inp line).softStop.toNat
        + stopPot (processLine cfg s inp line).s ≤ stopPot s := by
  unfold processLine
  by_cases hc : (markPhase s inp line).collecting
  · by_cases hsoft :
      softFireB cfg (appendRow (markPhase s inp line) (parse_row line)) inp = true
    · have hss : s.sentStop = false := by
        have h2 := softFireB_sentStop cfg _ inp hsoft
        rwa [appendRow_sentStop, markPhase_sentStop] at h2
      simp [hc, hsoft, stopPot, hss]
    · rw [Bool.not_eq_true] at hsoft
      have hss : (appendRow (markPhase s inp line) (parse_row line)).sentStop
          = s.sentStop := by rw [appendRow_sentStop, markPhase_sentStop]
      simp [hc, hsoft, stopPot, hss]
  · simp only [hc, if_false]
    refine ⟨rfl, ?_⟩
    simp [stopPot, markPhase_sentStop]

lemma readPhase_hard (cfg : CaptureCfg) (s : CaptureState) (inp : LoopInput)
    (hard : Bool) : (readPhase cfg s inp hard).hardStop = hard := by
  unfold readPhase
  rcases inp.read with - | line
  · rfl
  · by_cases hl : line = "" <;> simp [hl]

lemma readPhase_stops (cfg : CaptureCfg) (s : CaptureState) (inp : LoopInput)
    (hard : Bool) :
    (readPhase cfg s inp hard).softStop.toNat
      + stopPot (readPhase cfg s inp hard).s ≤ stopPot s := by
  unfold readPhase
  rcases inp.read with - | line
  · simp
  · by_cases hl : line = ""
    · simp [hl]
    · simp only [hl, if_neg, Bool.false_eq_true, if_false]
      have h := (processLine_stops cfg s inp line).2
      simpa using h

lemma captureStep_stops (cfg : CaptureCfg) (s : CaptureState) (inp : LoopInput) :
    (captureStep cfg s inp).hardStop.toNat + (captureStep cfg s inp).softStop.toNat
      + stopPot (captureStep cfg s inp).s ≤ stopPot s := by
  unfold captureStep
  by_cases htop : cfg.timeout > 0 ∧ inp.tCheck - cfg.startWall > cfg.timeout
  · rw [if_pos htop]
    by_cases hcs : (s.collecting && !s.sentStop) = true
    · rw [if_pos hcs]
      have hss : s.sentStop = false := by
        simp only [Bool.and_eq_true, Bool.not_eq_eq_eq_not, Bool.not_true] at hcs
        exact hcs.2
      have hpz : stopPot { s with sentStop := true } = 0 := rfl
      have h := readPhase_stops cfg { s with sentStop := true } inp true
      rw [hpz] at h
      rw [readPhase_hard]
      have hpots : stopPot s = 1 := by simp [stopPot, hss]
      rw [hpots]
      simp only [Bool.toNat_true]
      omega
    · rw [if_neg hcs]
      simp [stopPot]
  · rw [if_neg htop]
    have h := readPhase_stops cfg s inp false
    rw [readPhase_hard]
    simpa using h

lemma captureRunAux_stops (cfg : CaptureCfg) (inputs : List LoopInput) :
    ∀ s : CaptureState,
      (captureRunAux cfg s inputs).hardStops + (captureRunAux cfg s inputs).softStops
        ≤ stopPot s := by
  induction inputs with
  | nil => intro s; simp [captureRunAux]
  | cons inp rest ih =>
    intro s
    unfold captureRunAux
    have hstep := captureStep_stops cfg s inp
    by_cases hex : (captureStep cfg s inp).exit = true
    · simp only [hex, if_true]
      simp only [stopPot] at hstep ⊢
      split at hstep <;> omega
    · simp only [Bool.not_eq_true] at hex
      simp only [hex, Bool.false_eq_true, if_false]
      have ht := ih (captureStep cfg s inp).s
      simp only [stopPot] at hstep ht ⊢
      split at hstep <;> split at ht <;> omega

/-- C1: over any sequence of loop iterations, the hard-timeout write site
(line 113) and the soft-duration write site (line 141) together write the
stop command at most once. -/
theorem capture_stop_sent_at_most_once (cfg : CaptureCfg) (inputs : List LoopInput) :
    (captureRun cfg inputs).hardStops + (captureRun cfg inputs).softStops ≤ 1 := by
  have h := captureRunAux_stops cfg inputs initState
  simpa [captureRun, stopPot, initState] using h

/-! ### The hard-timeout branch (claim C2) -/

/-- C2 counterexample: in the initial state (before any session-start
marker, no stop sent), an iteration whose hard-timeout check fires takes
the `else: break` of line 118 — the loop aborts without ever sending a
stop command, contradicting the claim that before the session-start
marker the engine would send the stop command and continue waiting. -/
theorem hard_timeout_before_collecting_aborts :
    initState.collecting = false ∧ initState.sentStop = false ∧
      captureStep ⟨none, 1, 0⟩ initState ⟨2, none, 0, 0⟩ =
        ⟨initState, true, false, false, none⟩ := by
  with_unfolding_all decide

/-- C2 amended: when the hard timeout is exceeded at the top of an
iteration, the engine sends the stop command and goes on to the read only
if it is already collecting and no stop has been sent; in every other
state — stop already sent, or the session-start marker not yet seen — it
aborts the loop immediately, keeping the rows collected so far. -/
theorem hard_timeout_branch_behavior (cfg : CaptureCfg) (s : CaptureState)
    (inp : LoopInput) (hpos : cfg.timeout > 0)
    (hexc : inp.tCheck - cfg.startWall > cfg.timeout) :
    (s.collecting = true → s.sentStop = false →
      captureStep cfg s inp = readPhase cfg { s with sentStop := true } inp true) ∧
    (s.collecting = false ∨ s.sentStop = true →
      captureStep cfg s inp = ⟨s, true, false, false, none⟩) := by
  unfold captureStep
  rw [if_pos ⟨hpos, hexc⟩]
  constructor
  · intro hcol hsent
    rw [if_pos (by simp [hcol, hsent])]
  · intro h
    rw [if_neg]
    rcases h with h | h <;> simp [h]

theorem hard_timeout_branch_behavior_witness :
    (⟨none, 1, 0⟩ : CaptureCfg).timeout > 0 ∧
    (⟨2, none, 0, 0⟩ : LoopInput).tCheck - (⟨none, 1, 0⟩ : CaptureCfg).startWall
      > (⟨none, 1, 0⟩ : CaptureCfg).timeout ∧
    captureStep ⟨none, 1, 0⟩ ⟨[], true, false, none⟩ ⟨2, none, 0, 0⟩ =
      readPhase ⟨none, 1, 0⟩ ⟨[], true, true, none⟩ ⟨2, none, 0, 0⟩ true :=
  ⟨by norm_num, by norm_num,
    (hard_timeout_branch_behavior ⟨none, 1, 0⟩ ⟨[], true, false, none⟩ ⟨2, none, 0, 0⟩
      (by norm_num) (by norm_num)).1 rfl rfl⟩

/-! ### Empty-session rejection (claim C6) -/

/-- C6: when the capture loop has exited, the session fails with
`EmptySession` exactly when zero rows were collected; otherwise no
such failure occurs and the rows are handed over as collected (in
arrival order). -/
theorem empty_session_rejection (cfg : CaptureCfg) (inputs : List LoopInput)
    (_hexited : (captureRun cfg inputs).exited = true) :
    (capture_monitor_session cfg inputs = .error .emptySession ↔
      (captureRun cfg inputs).s.rows = []) ∧
    ((captureRun cfg inputs).s.rows ≠ [] →
      capture_monitor_session cfg inputs = .ok (captureRun cfg inputs).s.rows) := by
  unfold capture_monitor_session
  by_cases h : (captureRun cfg inputs).s.rows = [] <;> simp [h]

/-- The three-data-row scenario of the specification's end-to-end example. -/
def scenarioInputs : List LoopInput :=
  [⟨0, some "[M_SESSION_START]", 1, 1⟩,
   ⟨0, some "0.10,100,512,510,509,3,1.25", 1, 1⟩,
   ⟨0, some "0.20,100,515,511,509,4,1.40", 1, 1⟩,
   ⟨0, some "0.30,100,520,512,510,5,1.55", 1, 1⟩,
   ⟨0, some "[M_SESSION_END]", 1, 1⟩]

theorem empty_session_rejection_witness :
    (captureRun ⟨none, 0, 0⟩ scenarioInputs).exited = true ∧
    ((capture_monitor_session ⟨none, 0, 0⟩ scenarioInputs = .error .emptySession ↔
      (captureRun ⟨none, 0, 0⟩ scenarioInputs).s.rows = []) ∧
     ((captureRun ⟨none, 0, 0⟩ scenarioInputs).s.rows ≠ [] →
      capture_monitor_session ⟨none, 0, 0⟩ scenarioInputs =
        .ok (captureRun ⟨none, 0, 0⟩ scenarioInputs).s.rows)) :=
  ⟨by with_unfolding_all decide,
    empty_session_rejection ⟨none, 0, 0⟩ scenarioInputs (by with_unfolding_all decide)⟩

/-! ### Non-positive timeout disables the deadline branch (claim C10) -/

lemma captureStep_no_timeout (cfg : CaptureCfg) (s : CaptureState) (inp : LoopInput)
    (h : cfg.timeout ≤ 0) : captureStep cfg s inp = readPhase cfg s inp false := by
  unfold captureStep
  rw [if_neg]
  rintro ⟨h1, -⟩
  exact absurd h1 (not_lt.mpr h)

lemma readPhase_exit_marker (cfg : CaptureCfg) (s : CaptureState) (inp : LoopInput)
    (hard : Bool) (h : (readPhase cfg s inp hard).exit = true) :
    ∃ l, inp.read = some l ∧ sessionEndB l = true := by
  unfold readPhase at h
  rcases hr : inp.read with - | line
  · simp only [hr] at h
    cases h
  · simp only [hr] at h
    by_cases hl : line = ""
    · rw [if_pos hl] at h
      cases h
    · rw [if_neg hl] at h
      refine ⟨line, rfl, ?_⟩
      unfold processLine at h
      by_cases hc : (markPhase s inp line).collecting
      · simpa [hc] using h
      · simp [hc] at h

lemma captureRunAux_no_timeout (cfg : CaptureCfg) (h : cfg.timeout ≤ 0)
    (inputs : List LoopInput) :
    ∀ s : CaptureState,
      (captureRunAux cfg s inputs).hardStops = 0 ∧
      ((∀ inp ∈ inputs, ∀ l, inp.read = some l → sessionEndB l = false) →
        (captureRunAux cfg s inputs).exited = false) := by
  induction inputs with
  | nil => exact fun s => ⟨rfl, fun _ => rfl⟩
  | cons inp rest ih =>
    intro s
    unfold captureRunAux
    rw [captureStep_no_timeout cfg s inp h]
    by_cases hex : (readPhase cfg s inp false).exit = true
    · refine ⟨?_, ?_⟩
      · simp [hex, readPhase_hard]
      · intro hno
        obtain ⟨l, hl, hend⟩ := readPhase_exit_marker cfg s inp false hex
        have h2 := hno inp (by simp) l hl
        rw [h2] at hend
        cases hend
    · rw [Bool.not_eq_true] at hex
      refine ⟨?_, ?_⟩
      · simp [hex, readPhase_hard, (ih (readPhase cfg s inp false).s).1]
      · intro hno
        simp only [hex, Bool.false_eq_true, if_false]
        exact (ih (readPhase cfg s inp false).s).2
          (fun i hi l hl => hno i (by simp [hi]) l hl)

/-- C10: with `timeout ≤ 0` the deadline branch at the top of the loop is
disabled: the hard-timeout write site never fires, and when the device
never sends a session-end marker or the completion phrase the loop never
exits. -/
theorem no_deadline_with_nonpositive_timeout (cfg : CaptureCfg)
    (inputs : List LoopInput) (h : cfg.timeout ≤ 0) :
    (captureRun cfg inputs).hardStops = 0 ∧
    ((∀ inp ∈ inputs, ∀ l, inp.read = some l → sessionEndB l = false) →
      (captureRun cfg inputs).exited = false) :=
  captureRunAux_no_timeout cfg h inputs initState

/-- A device that keeps sending data rows and never an end marker. -/
def endlessInputs : List LoopInput :=
  [⟨100, some "[M_SESSION_START]", 100, 100⟩,
   ⟨200, some "0.10,100,512,510,509,3,1.25", 200, 200⟩,
   ⟨300, some "0.20,100,515,511,509,4,1.40", 300, 300⟩]

theorem no_deadline_with_nonpositive_timeout_witness :
    (⟨none, 0, 0⟩ : CaptureCfg).timeout ≤ 0 ∧
    (captureRun ⟨none, 0, 0⟩ endlessInputs).hardStops = 0 ∧
    (captureRun ⟨none, 0, 0⟩ endlessInputs).exited = false :=
  ⟨by norm_num,
    (no_deadline_with_nonpositive_timeout ⟨none, 0, 0⟩ endlessInputs (by norm_num)).1,
    (no_deadline_with_nonpositive_timeout ⟨none, 0, 0⟩ endlessInputs (by norm_num)).2
      (by decide)⟩

/-! ### Data rows and the session-start marker (claim C4) -/

lemma markPhase_collecting (s : CaptureState) (inp : LoopInput) (line : String)
    (h : (markPhase s inp line).collecting = true) :
    s.collecting = true ∨ containsB sessionStartStr line = true := by
  unfold markPhase at h
  split at h
  · right; assumption
  · exact .inl h

lemma processLine_collecting_eq (cfg : CaptureCfg) (s : CaptureState)
    (inp : LoopInput) (line : String) :
    (processLine cfg s inp line).s.collecting = (markPhase s inp line).collecting := by
  unfold processLine
  by_cases hc : (markPhase s inp line).collecting = true
  · simp only [hc, if_true]
    by_cases hs : softFireB cfg (appendRow (markPhase s inp line) (parse_row line)) inp
        = true <;>
      simp [hs, appendRow_collecting, hc]
  · rw [Bool.not_eq_true] at hc
    simp [hc]

lemma readPhase_collecting (cfg : CaptureCfg) (s : CaptureState) (inp : LoopInput)
    (hard : Bool) (h : (readPhase cfg s inp hard).s.collecting = true) :
    s.collecting = true ∨ ∃ l, inp.read = some l ∧ containsB sessionStartStr l = true := by
  unfold readPhase at h
  rcases hr : inp.read with - | line
  · simp only [hr] at h
    exact .inl h
  · simp only [hr] at h
    by_cases hl : line = ""
    · rw [if_pos hl] at h
      exact .inl h
    · rw [if_neg hl] at h
      have h2 : (processLine cfg s inp line).s.collecting = true := h
      rw [processLine_collecting_eq] at h2
      rcases markPhase_collecting s inp line h2 with hcol | hmark
      · exact .inl hcol
      · exact .inr ⟨line, rfl, hmark⟩

lemma captureStep_collecting (cfg : CaptureCfg) (s : CaptureState) (inp : LoopInput)
    (h : (captureStep cfg s inp).s.collecting = true) :
    s.collecting = true ∨ ∃ l, inp.read = some l ∧ containsB sessionStartStr l = true := by
  unfold captureStep at h
  by_cases htop : cfg.timeout > 0 ∧ inp.tCheck - cfg.startWall > cfg.timeout
  · rw [if_pos htop] at h
    by_cases hcs : (s.collecting && !s.sentStop) = true
    · rw [if_pos hcs] at h
      have h2 := readPhase_collecting cfg { s with sentStop := true } inp true h
      simpa using h2
    · rw [if_neg hcs] at h
      exact .inl h
  · rw [if_neg htop] at h
    exact readPhase_collecting cfg s inp false h

lemma processLine_appended (cfg : CaptureCfg) (s : CaptureState) (inp : LoopInput)
    (line : String) (r : DataRow)
    (h : (processLine cfg s inp line).appended = some r) :
    (processLine cfg s inp line).s.collecting = true := by
  rw [processLine_collecting_eq]
  unfold processLine at h
  by_cases hc : (markPhase s inp line).collecting = true
  · exact hc
  · rw [Bool.not_eq_true] at hc
    simp [hc] at h

lemma captureStep_appended (cfg : CaptureCfg) (s : CaptureState) (inp : LoopInput)
    (r : DataRow) (h : (captureStep cfg s inp).appended = some r) :
    (captureStep cfg s inp).s.collecting = true := by
  unfold captureStep at h ⊢
  by_cases htop : cfg.timeout > 0 ∧ inp.tCheck - cfg.startWall > cfg.timeout
  · rw [if_pos htop] at h ⊢
    by_cases hcs : (s.collecting && !s.sentStop) = true
    · rw [if_pos hcs] at h ⊢
      unfold readPhase at h ⊢
      rcases hr : inp.read with - | line
      · simp only [hr] at h
        cases h
      · simp only [hr] at h ⊢
        by_cases hl : line = ""
        · rw [if_pos hl] at h
          cases h
        · rw [if_neg hl] at h ⊢
          exact processLine_appended cfg _ inp line r h
    · rw [if_neg hcs] at h
      cases h
  · rw [if_neg htop] at h ⊢
    unfold readPhase at h ⊢
    rcases hr : inp.read with - | line
    · simp only [hr] at h
      cases h
    · simp only [hr] at h ⊢
      by_cases hl : line = ""
      · rw [if_pos hl] at h
        cases h
      · rw [if_neg hl] at h ⊢
        exact processLine_appended cfg s inp line r h

lemma captureRunAux_appends_marker (cfg : CaptureCfg) (inputs : List LoopInput) :
    ∀ s : CaptureState, ∀ p ∈ (captureRunAux cfg s inputs).appends,
      s.collecting = true ∨
        ∃ j, j ≤ p.1 ∧ ∃ inp2, inputs[j]? = some inp2 ∧
          ∃ l, inp2.read = some l ∧ containsB sessionStartStr l = true := by
  induction inputs with
  | nil =>
    intro s p hp
    simp [captureRunAux] at hp
  | cons inp rest ih =>
    intro s p hp
    have happ : ∀ hp2 : p ∈ (match (captureStep cfg s inp).appended with
        | some r => [(0, r)]
        | none => ([] : List (ℕ × DataRow))),
        s.collecting = true ∨
          ∃ j, j ≤ p.1 ∧ ∃ inp2, (inp :: rest)[j]? = some inp2 ∧
            ∃ l, inp2.read = some l ∧ containsB sessionStartStr l = true := by
      intro hp2
      rcases ha : (captureStep cfg s inp).appended with - | r
      · rw [ha] at hp2
        cases hp2
      · rw [ha] at hp2
        have hcol := captureStep_appended cfg s inp r ha
        rcases captureStep_collecting cfg s inp hcol with hc | ⟨l, hl, hm⟩
        · exact .inl hc
        · exact .inr ⟨0, Nat.zero_le _, inp, by simp, l, hl, hm⟩
    unfold captureRunAux at hp
    by_cases hex : (captureStep cfg s inp).exit = true
    · simp only [hex, if_true] at hp
      exact happ hp
    · rw [Bool.not_eq_true] at hex
      simp only [hex, Bool.false_eq_true, if_false] at hp
      rcases List.mem_append.mp hp with hp1 | hp2
      · exact happ hp1
      · rcases List.mem_map.mp hp2 with ⟨q, hq, hpq⟩
        rcases ih (captureStep cfg s inp).s q hq with hc | ⟨j, hj, inp2, hg, l, hl, hm⟩
        · rcases captureStep_collecting cfg s inp hc with hc2 | ⟨l, hl, hm⟩
          · exact .inl hc2
          · refine .inr ⟨0, ?_, inp, by simp, l, hl, hm⟩
            omega
        · refine .inr ⟨j + 1, ?_, inp2, by simpa using hg, l, hl, hm⟩
          subst hpq
          simpa using Nat.succ_le_succ hj

/-- C4 counterexample: a single received line that both bears the
session-start marker and matches the data grammar is appended as a
DataRow on the very iteration that sees the marker — the row does not
come from a line strictly after the marker line, and the marker line
itself is appended. -/
theorem start_marker_line_appended_as_row :
    containsB sessionStartStr "0,0,0,0,0,0,0,[M_SESSION_START]" = true ∧
    (captureRun ⟨none, 0, 0⟩
      [⟨0, some "0,0,0,0,0,0,0,[M_SESSION_START]", 1, 1⟩]).appends =
        [(0, ⟨0, 0, 0, 0, 0, 0, 0⟩)] := by
  with_unfolding_all decide

/-- C4 amended: every appended DataRow comes from an iteration at or after
the first iteration whose line bears the session-start marker (so no line
before the transition is parsed as data), and the session-start marker
line itself is appended as a DataRow whenever it also matches the data
grammar. -/
theorem rows_only_after_start_marker (cfg : CaptureCfg) (inputs : List LoopInput) :
    (∀ p ∈ (captureRun cfg inputs).appends,
      ∃ j, j ≤ p.1 ∧ ∃ inp2, inputs[j]? = some inp2 ∧
        ∃ l, inp2.read = some l ∧ containsB sessionStartStr l = true) ∧
    (∀ (s : CaptureState) (inp : LoopInput) (l : String) (r : DataRow),
      containsB sessionStartStr l = true → parse_row l = some r →
      (processLine cfg s inp l).appended = some r) := by
  constructor
  · intro p hp
    rcases captureRunAux_appends_marker cfg inputs initState p hp with hc | h
    · cases hc
    · exact h
  · intro s inp l r hm hp
    unfold processLine
    have hc1 : (markPhase s inp l).collecting = true := by
      unfold markPhase
      rw [if_pos hm]
    simp only [hc1, if_true]
    simp [hp]

theorem rows_only_after_start_marker_witness :
    (1, (⟨1/10, 100, 512, 510, 509, 3, 5/4⟩ : DataRow)) ∈
      (captureRun ⟨none, 0, 0⟩ scenarioInputs).appends ∧
    (∃ j, j ≤ 1 ∧ ∃ inp2, scenarioInputs[j]? = some inp2 ∧
      ∃ l, inp2.read = some l ∧ containsB sessionStartStr l = true) :=
  ⟨by with_unfolding_all decide,
    (rows_only_after_start_marker ⟨none, 0, 0⟩ scenarioInputs).1
      (1, ⟨1/10, 100, 512, 510, 509, 3, 5/4⟩) (by with_unfolding_all decide)⟩

/-! ### The session-end marker (claim C5) -/

lemma appendRow_rows (s : CaptureState) (p : Option DataRow) :
    (appendRow s p).rows = s.rows ++ p.toList := by
  cases p <;> simp [appendRow, Option.toList]

lemma processLine_run (cfg : CaptureCfg) (s : CaptureState) (inp : LoopInput)
    (line : String) (hc : s.collecting = true) :
    (processLine cfg s inp line).exit = sessionEndB line ∧
    (processLine cfg s inp line).s.rows = s.rows ++ (parse_row line).toList := by
  unfold processLine
  have hc1 : (markPhase s inp line).collecting = true := by
    unfold markPhase
    split <;> simp [hc]
  simp only [hc1, if_true]
  refine ⟨by trivial, ?_⟩
  by_cases hs : softFireB cfg (appendRow (markPhase s inp line) (parse_row line)) inp
      = true <;>
    simp [hs, appendRow_rows, markPhase_rows]

/-- C5 amended: while collecting, a received nonempty line bearing the
session-end marker or the completion phrase ends the loop on that
iteration, whatever the soft and hard deadlines say — provided the
iteration reaches the read at all (the hard timeout with a stop already
sent aborts at the top of the loop before reading).  The line is first
run through the data grammar, so it IS appended as a DataRow when it also
matches — classification is parse-then-marker, not marker-first. -/
theorem end_marker_ends_session (cfg : CaptureCfg) (s : CaptureState)
    (inp : LoopInput) (l : String) (hc : s.collecting = true)
    (hr : inp.read = some l) (hl : l ≠ "") (hend : sessionEndB l = true)
    (htop : ¬(cfg.timeout > 0 ∧ inp.tCheck - cfg.startWall > cfg.timeout ∧
      s.sentStop = true)) :
    (captureStep cfg s inp).exit = true ∧
    (captureStep cfg s inp).s.rows = s.rows ++ (parse_row l).toList := by
  unfold captureStep
  by_cases ht : cfg.timeout > 0 ∧ inp.tCheck - cfg.startWall > cfg.timeout
  · rw [if_pos ht]
    have hsent : s.sentStop = false := by
      rcases hss : s.sentStop
      · rfl
      · exact absurd ⟨ht.1, ht.2, hss⟩ htop
    rw [if_pos (by simp [hc, hsent])]
    unfold readPhase
    simp only [hr]
    rw [if_neg hl]
    have h2 := processLine_run cfg { s with sentStop := true } inp l (by simpa using hc)
    refine ⟨?_, ?_⟩
    · show (processLine cfg { s with sentStop := true } inp l).exit = true
      rw [h2.1, hend]
    · show (processLine cfg { s with sentStop := true } inp l).s.rows = _
      rw [h2.2]
  · rw [if_neg ht]
    unfold readPhase
    simp only [hr]
    rw [if_neg hl]
    have h2 := processLine_run cfg s inp l hc
    refine ⟨?_, ?_⟩
    · show (processLine cfg s inp l).exit = true
      rw [h2.1, hend]
    · show (processLine cfg s inp l).s.rows = _
      exact h2.2

theorem end_marker_ends_session_witness :
    (⟨[], true, false, none⟩ : CaptureState).collecting = true ∧
    sessionEndB "[M_SESSION_END]" = true ∧
    (captureStep ⟨none, 0, 0⟩ ⟨[], true, false, none⟩
        ⟨99, some "[M_SESSION_END]", 99, 99⟩).exit = true ∧
    (captureStep ⟨none, 0, 0⟩ ⟨[], true, false, none⟩
        ⟨99, some "[M_SESSION_END]", 99, 99⟩).s.rows =
      [] ++ (parse_row "[M_SESSION_END]").toList :=
  ⟨rfl, by decide,
    (end_marker_ends_session ⟨none, 0, 0⟩ ⟨[], true, false, none⟩
      ⟨99, some "[M_SESSION_END]", 99, 99⟩ "[M_SESSION_END]" rfl rfl (by decide)
      (by decide) (by norm_num)).1,
    (end_marker_ends_session ⟨none, 0, 0⟩ ⟨[], true, false, none⟩
      ⟨99, some "[M_SESSION_END]", 99, 99⟩ "[M_SESSION_END]" rfl rfl (by decide)
      (by decide) (by norm_num)).2⟩

/-- C5 counterexample: while collecting, a line bearing the session-end
marker that also matches the data grammar is appended to the session
before the loop breaks — the claim that such a line is never appended as
a DataRow fails. -/
theorem end_marker_line_appended_before_break :
    sessionEndB "0,0,0,0,0,0,0,[M_SESSION_END]" = true ∧
    (captureRun ⟨none, 0, 0⟩
      [⟨0, some "[M_SESSION_START]", 1, 1⟩,
       ⟨0, some "0,0,0,0,0,0,0,[M_SESSION_END]", 1, 1⟩]).exited = true ∧
    (captureRun ⟨none, 0, 0⟩
      [⟨0, some "[M_SESSION_START]", 1, 1⟩,
       ⟨0, some "0,0,0,0,0,0,0,[M_SESSION_END]", 1, 1⟩]).s.rows =
      [⟨0, 0, 0, 0, 0, 0, 0⟩] := by
  with_unfolding_all decide

/-! ### Termination under silence (claim C8) -/

lemma captureStep_silent (cfg : CaptureCfg) (s : CaptureState) (inp : LoopInput)
    (hcol : s.collecting = false) (hr : inp.read = none) :
    captureStep cfg s inp =
      if cfg.timeout > 0 ∧ inp.tCheck - cfg.startWall > cfg.timeout then
        ⟨s, true, false, false, none⟩
      else ⟨s, false, false, false, none⟩ := by
  unfold captureStep
  by_cases htop : cfg.timeout > 0 ∧ inp.tCheck - cfg.startWall > cfg.timeout
  · rw [if_pos htop, if_pos htop, if_neg (by simp [hcol])]
  · rw [if_neg htop, if_neg htop]
    unfold readPhase
    simp only [hr]

lemma captureRunAux_silent (cfg : CaptureCfg) (p : ℚ) (hT : cfg.timeout > 0) :
    ∀ (inputs : List LoopInput) (hne : inputs ≠ []),
      (∀ inp ∈ inputs, inp.read = none) →
      (inputs.head hne).tCheck ≤ cfg.startWall + cfg.timeout + p →
      List.Chain' (fun a b => b.tCheck ≤ a.tCheck + p) inputs →
      (inputs.getLast hne).tCheck > cfg.startWall + cfg.timeout →
      (captureRunAux cfg initState inputs).exited = true ∧
      ∃ k, ∃ hk : k < inputs.length,
        (captureRunAux cfg initState inputs).steps = k + 1 ∧
        (inputs.get ⟨k, hk⟩).tCheck ≤ cfg.startWall + cfg.timeout + p := by
  intro inputs
  induction inputs with
  | nil => intro hne; exact absurd rfl hne
  | cons inp rest ih =>
    intro hne hreads hhead hchain hlast
    have hstep := captureStep_silent cfg initState inp rfl (hreads inp (by simp))
    unfold captureRunAux
    by_cases hc : cfg.timeout > 0 ∧ inp.tCheck - cfg.startWall > cfg.timeout
    · rw [hstep, if_pos hc]
      refine ⟨rfl, 0, by simp, rfl, ?_⟩
      simpa using hhead
    · rw [hstep, if_neg hc]
      simp only [Bool.false_eq_true, if_false]
      have hle : inp.tCheck ≤ cfg.startWall + cfg.timeout := by
        rcases not_and_or.mp hc with h | h
        · exact absurd hT h
        · linarith [not_lt.mp h]
      rcases rest with - | ⟨r1, rest2⟩
      · exfalso
        have : inp.tCheck > cfg.startWall + cfg.timeout := by simpa using hlast
        linarith
      · have hch := List.chain'_cons.mp hchain
        have hh1 : r1.tCheck ≤ cfg.startWall + cfg.timeout + p := by
          have := hch.1
          linarith
        have hla : ((r1 :: rest2).getLast (by simp)).tCheck
            > cfg.startWall + cfg.timeout := by
          rwa [List.getLast_cons] at hlast
        obtain ⟨hex, k, hk, hsteps, hbound⟩ :=
          ih (by simp) (fun i hi => hreads i (by simp [hi])) hh1 hch.2 hla
        refine ⟨by simpa using hex, k + 1, by simpa using Nat.succ_lt_succ hk, ?_, ?_⟩
        · simp [hsteps]
        · simpa using hbound

/-- C8: with a positive hard timeout `T` and a device that sends nothing
(every read is empty), any sufficiently long run of the capture loop —
iteration checks at most one poll interval `p` apart, the first within
`p` of the start, the last past the deadline — exits by `break`, and the
iteration that breaks runs its check no later than `start + T + p`. -/
theorem capture_terminates_within_timeout_plus_poll (cfg : CaptureCfg) (p : ℚ)
    (inputs : List LoopInput) (hT : cfg.timeout > 0) (hne : inputs ≠ [])
    (hreads : ∀ inp ∈ inputs, inp.read = none)
    (hhead : (inputs.head hne).tCheck ≤ cfg.startWall + p)
    (hchain : List.Chain' (fun a b => b.tCheck ≤ a.tCheck + p) inputs)
    (hlast : (inputs.getLast hne).tCheck > cfg.startWall + cfg.timeout) :
    (captureRun cfg inputs).exited = true ∧
    ∃ k, ∃ hk : k < inputs.length, (captureRun cfg inputs).steps = k + 1 ∧
      (inputs.get ⟨k, hk⟩).tCheck ≤ cfg.startWall + cfg.timeout + p :=
  captureRunAux_silent cfg p hT inputs hne hreads (by linarith) hchain hlast

theorem capture_terminates_within_timeout_plus_poll_witness :
    (⟨none, 1, 0⟩ : CaptureCfg).timeout > 0 ∧
    (∀ inp ∈ ([⟨1, none, 0, 0⟩, ⟨2, none, 0, 0⟩] : List LoopInput), inp.read = none) ∧
    ((captureRun ⟨none, 1, 0⟩ [⟨1, none, 0, 0⟩, ⟨2, none, 0, 0⟩]).exited = true ∧
     ∃ k, ∃ hk : k < ([⟨1, none, 0, 0⟩, ⟨2, none, 0, 0⟩] : List LoopInput).length,
       (captureRun ⟨none, 1, 0⟩ [⟨1, none, 0, 0⟩, ⟨2, none, 0, 0⟩]).steps = k + 1 ∧
       (([⟨1, none, 0, 0⟩, ⟨2, none, 0, 0⟩] : List LoopInput).get ⟨k, hk⟩).tCheck ≤
         (⟨none, 1, 0⟩ : CaptureCfg).startWall + (⟨none, 1, 0⟩ : CaptureCfg).timeout + 1) :=
  ⟨by norm_num, by decide,
    capture_terminates_within_timeout_plus_poll ⟨none, 1, 0⟩ 1
      [⟨1, none, 0, 0⟩, ⟨2, none, 0, 0⟩] (by norm_num) (by decide) (by decide)
      (by with_unfolding_all decide)
      (List.chain'_pair.mpr (by with_unfolding_all decide))
      (by with_unfolding_all decide)⟩

/-! ### Tare outcome characterization (claim C7) -/

/-- The banner flag after processing the first `k` lines, starting from
flag `b`. -/
def flagAt (b : Bool) (lines : List String) (k : ℕ) : Bool :=
  b || (lines.take k).any (fun l => containsB tareBannerStr l)

/-- Was the tare banner seen on one of the first `k` lines (strictly
before line `k`)? -/
def sawBefore (lines : List String) (k : ℕ) : Bool :=
  (lines.take k).any (fun l => containsB tareBannerStr l)

/-- The terminal outcome, if any, that processing one line yields, given
the banner flag `saw` at the point the line is read.  The flag is updated
by the line itself before the close-marker test, as in source lines
75-85. -/
def tareOutcomeWith (saw : Bool) (l : String) : Option TareOut :=
  if containsB tareSuccessStr l then some .success
  else if containsB tareFailureStr l then some .tareFailed
  else if (saw || containsB tareBannerStr l) && containsB tareCloseStr l then
    some .endedWithoutResult
  else none

lemma tareStep_snd (b : Bool) (l : String) :
    (tareStep b l).2 = tareOutcomeWith b l := by
  by_cases hl : l = ""
  · subst hl
    cases b <;> decide
  · unfold tareStep tareOutcomeWith
    rw [if_neg hl]
    split_ifs <;> rfl

lemma tareStep_fst (b : Bool) (l : String) :
    (tareStep b l).1 = (b || containsB tareBannerStr l) := by
  by_cases hl : l = ""
  · subst hl
    cases b <;> decide
  · unfold tareStep
    rw [if_neg hl]
    split_ifs <;> rfl

lemma flagAt_zero (b : Bool) (lines : List String) : flagAt b lines 0 = b := by
  simp [flagAt]

lemma flagAt_cons (b : Bool) (l : String) (ls : List String) (k : ℕ) :
    flagAt b (l :: ls) (k + 1) = flagAt (b || containsB tareBannerStr l) ls k := by
  simp [flagAt, List.take_succ_cons, Bool.or_assoc]

lemma runTareAux_cons_eq (b : Bool) (l : String) (ls : List String) :
    runTareAux b (l :: ls) =
      match (tareStep b l).2 with
      | some o => o
      | none => runTareAux (tareStep b l).1 ls := by
  show (match tareStep b l with
    | (_, some o) => o
    | (sawB2, none) => runTareAux sawB2 ls) = _
  rcases tareStep b l with ⟨b2, - | o2⟩ <;> rfl

lemma runTareAux_cons_some (b : Bool) (l : String) (ls : List String) (o3 : TareOut)
    (h : (tareStep b l).2 = some o3) : runTareAux b (l :: ls) = o3 := by
  rw [runTareAux_cons_eq, h]

lemma runTareAux_cons_none (b : Bool) (l : String) (ls : List String)
    (h : (tareStep b l).2 = none) :
    runTareAux b (l :: ls) = runTareAux (tareStep b l).1 ls := by
  rw [runTareAux_cons_eq, h]

lemma runTareAux_eq_iff (o : TareOut) (ho : o ≠ .pending) :
    ∀ (lines : List String) (b : Bool),
      runTareAux b lines = o ↔
        ∃ k l, lines[k]? = some l ∧
          tareOutcomeWith (flagAt b lines k) l = some o ∧
          ∀ j l2, j < k → lines[j]? = some l2 →
            tareOutcomeWith (flagAt b lines j) l2 = none := by
  intro lines
  induction lines with
  | nil =>
    intro b
    constructor
    · intro h
      unfold runTareAux at h
      exact absurd h.symm ho
    · rintro ⟨k, l, hk, -, -⟩
      simp at hk
  | cons l ls ih =>
    intro b
    constructor
    · intro h
      rcases hstep : (tareStep b l).2 with - | o3
      · rw [runTareAux_cons_none b l ls hstep] at h
        obtain ⟨k, l4, hk, hout, hprev⟩ := (ih (tareStep b l).1).mp h
        refine ⟨k + 1, l4, by simpa using hk, ?_, ?_⟩
        · rw [flagAt_cons, ← tareStep_fst]
          exact hout
        · intro j l2 hj hl2
          rcases j with - | j2
          · simp only [List.getElem?_cons_zero, Option.some.injEq] at hl2
            subst hl2
            rw [flagAt_zero, ← tareStep_snd, hstep]
          · rw [flagAt_cons, ← tareStep_fst]
            exact hprev j2 l2 (by omega) (by simpa using hl2)
      · rw [runTareAux_cons_some b l ls o3 hstep] at h
        subst h
        refine ⟨0, l, by simp, ?_, ?_⟩
        · rw [flagAt_zero, ← tareStep_snd, hstep]
        · intro j l2 hj hl2
          exact absurd hj (Nat.not_lt_zero j)
    · rintro ⟨k, l4, hk, hout, hprev⟩
      rcases hstep : (tareStep b l).2 with - | o3
      · rw [runTareAux_cons_none b l ls hstep]
        apply (ih (tareStep b l).1).mpr
        rcases k with - | k2
        · exfalso
          simp only [List.getElem?_cons_zero, Option.some.injEq] at hk
          subst hk
          rw [flagAt_zero, ← tareStep_snd, hstep] at hout
          simp at hout
        · refine ⟨k2, l4, by simpa using hk, ?_, ?_⟩
          · rw [flagAt_cons, ← tareStep_fst] at hout
            exact hout
          · intro j l2 hj hl2
            have h2 := hprev (j + 1) l2 (by omega) (by simpa using hl2)
            rw [flagAt_cons, ← tareStep_fst] at h2
            exact h2
      · rw [runTareAux_cons_some b l ls o3 hstep]
        rcases k with - | k2
        · simp only [List.getElem?_cons_zero, Option.some.injEq] at hk
          subst hk
          rw [flagAt_zero, ← tareStep_snd, hstep] at hout
          exact Option.some_inj.mp hout
        · exfalso
          have h2 := hprev 0 l (by omega) (by simp)
          rw [flagAt_zero, ← tareStep_snd, hstep] at h2
          simp at h2

lemma sawBefore_eq_flagAt (lines : List String) (k : ℕ) :
    sawBefore lines k = flagAt false lines k := by
  simp [sawBefore, flagAt]

lemma tareOutcomeWith_ended_iff (saw : Bool) (l : String) :
    tareOutcomeWith saw l = some .endedWithoutResult ↔
      containsB tareSuccessStr l = false ∧ containsB tareFailureStr l = false ∧
      (saw = true ∨ containsB tareBannerStr l = true) ∧
      containsB tareCloseStr l = true := by
  unfold tareOutcomeWith
  split_ifs with h1 h2 h3
  · simp [h1]
  · simp [h1, h2]
  · simp only [Bool.and_eq_true, Bool.or_eq_true] at h3
    simp only [Bool.not_eq_true] at h1 h2
    simp [h1, h2, h3.1, h3.2]
  · simp only [Bool.not_eq_true] at h1 h2
    constructor
    · intro h
      cases h
    · rintro ⟨-, -, hor, hcl⟩
      exact absurd (by rw [Bool.and_eq_true, Bool.or_eq_true]; exact ⟨hor, hcl⟩) h3


/-- C7 counterexample: a single line containing both the tare-start banner
and the banner-closing marker makes the handshake fail with
`TareEndedWithoutResult` — yet no line containing the banner was
previously observed (there is only one line), because the banner flag is
set by the same line before the close-marker test. -/
theorem tare_combined_banner_close_line_fails :
    run_tare_before_monitor
        ["=== TARING STRAIN GAUGE === ==========================="] =
      .endedWithoutResult ∧
    (["=== TARING STRAIN GAUGE === ==========================="] :
      List String).length = 1 := by
  decide

/-- C7 amended: the handshake fails with `TareEndedWithoutResult` exactly
when some line contains the banner-closing marker but neither the success
nor the failure marker, the tare-start banner appears on that line or an
earlier one, and no earlier line already produced a terminal outcome; a
closing line with no banner at or before it causes no failure, and a line
containing the success marker yields success whatever other markers it
carries, provided no earlier line was terminal. -/
theorem tare_ended_without_result_characterization (lines : List String) :
    (run_tare_before_monitor lines = .endedWithoutResult ↔
      ∃ k l, lines[k]? = some l ∧
        containsB tareSuccessStr l = false ∧
        containsB tareFailureStr l = false ∧
        (sawBefore lines k = true ∨ containsB tareBannerStr l = true) ∧
        containsB tareCloseStr l = true ∧
        ∀ j l2, j < k → lines[j]? = some l2 →
          tareOutcomeWith (sawBefore lines j) l2 = none) ∧
    (∀ k l, lines[k]? = some l → containsB tareSuccessStr l = true →
      (∀ j l2, j < k → lines[j]? = some l2 →
        tareOutcomeWith (sawBefore lines j) l2 = none) →
      run_tare_before_monitor lines = .success) := by
  constructor
  · unfold run_tare_before_monitor
    rw [runTareAux_eq_iff .endedWithoutResult (by simp) lines false]
    constructor
    · rintro ⟨k, l, hk, hout, hprev⟩
      simp only [← sawBefore_eq_flagAt] at hout hprev
      obtain ⟨h1, h2, h3, h4⟩ := (tareOutcomeWith_ended_iff _ _).mp hout
      exact ⟨k, l, hk, h1, h2, h3, h4, hprev⟩
    · rintro ⟨k, l, hk, h1, h2, h3, h4, hprev⟩
      refine ⟨k, l, hk, ?_, ?_⟩
      · simp only [← sawBefore_eq_flagAt]
        exact (tareOutcomeWith_ended_iff _ _).mpr ⟨h1, h2, h3, h4⟩
      · simp only [← sawBefore_eq_flagAt]
        exact hprev
  · intro k l hk hsucc hprev
    unfold run_tare_before_monitor
    apply (runTareAux_eq_iff .success (by simp) lines false).mpr
    refine ⟨k, l, hk, ?_, ?_⟩
    · unfold tareOutcomeWith
      rw [if_pos hsucc]
    · simp only [← sawBefore_eq_flagAt]
      exact hprev

theorem tare_ended_without_result_characterization_witness :
    run_tare_before_monitor
        ["=== TARING STRAIN GAUGE ===", "==========================="] =
      .endedWithoutResult :=
  (tare_ended_without_result_characterization
      ["=== TARING STRAIN GAUGE ===", "==========================="]).1.mpr
    ⟨1, "===========================", by decide, by decide, by decide,
      by decide, by decide, by
        intro j l2 hj hl2
        have hj0 : j = 0 := by omega
        subst hj0
        simp only [List.getElem?_cons_zero, Option.some.injEq] at hl2
        subst hl2
        decide⟩

/-! ### Shape of the row grammar (claims C3 and C9)

Declarative token predicates phrased after the specification's reading of
`ROW_PATTERN` (7 comma-separated numeric fields with whitespace around
each field ignored), together with exact-munch and soundness lemmas
relating them to the parser. -/

/-- Every character is (ASCII) whitespace. -/
def WsL (cs : List Char) : Prop :=
  ∀ c ∈ cs, wsChar c = true

/-- A nonempty run of decimal digits. -/
def DigitsL (cs : List Char) : Prop :=
  cs ≠ [] ∧ ∀ c ∈ cs, digitChar c = true

/-- The text of an unsigned decimal literal with integer digits `d` and
fractional digits `f` (no fractional part when `f = []`). -/
def udecStr (d f : List Char) : List Char :=
  if f.isEmpty then d else d ++ '.' :: f

/-- The text of an optional minus sign. -/
def sgn (neg : Bool) : List Char :=
  if neg then ['-'] else []

/-- The first character (if any) fails `p`. -/
def headNot (p : Char → Bool) : List Char → Prop
  | [] => True
  | c :: _ => p c = false

/-- The first character (if any) differs from `c0`. -/
def headNe (c0 : Char) : List Char → Prop
  | [] => True
  | c :: _ => c ≠ c0

lemma wsChar_not_digit {c : Char} (h : wsChar c = true) : digitChar c = false := by
  simp only [wsChar, Bool.or_eq_true, decide_eq_true_eq] at h
  rcases h with ((((h | h) | h) | h) | h) | h <;> subst h <;> decide

lemma digitChar_not_ws {c : Char} (h : digitChar c = true) : wsChar c = false := by
  rcases hw : wsChar c
  · rfl
  · rw [wsChar_not_digit hw] at h
    cases h

lemma wsChar_ne_dot {c : Char} (h : wsChar c = true) : c ≠ '.' := by
  intro he
  subst he
  exact absurd h (by decide)

lemma digitChar_ne_dash {c : Char} (h : digitChar c = true) : c ≠ '-' := by
  intro he
  subst he
  exact absurd h (by decide)

lemma takeWhile_all_append {p : Char → Bool} (a l : List Char)
    (ha : ∀ c ∈ a, p c = true) (hl : headNot p l) :
    (a ++ l).takeWhile p = a := by
  induction a with
  | nil =>
    cases l with
    | nil => rfl
    | cons c cs =>
      have hc : p c = false := hl
      simp [List.takeWhile_cons, hc]
  | cons x xs ih =>
    have hx : p x = true := ha x (by simp)
    simp [List.takeWhile_cons, hx, ih (fun c hc => ha c (by simp [hc]))]

lemma dropWhile_all_append {p : Char → Bool} (a l : List Char)
    (ha : ∀ c ∈ a, p c = true) (hl : headNot p l) :
    (a ++ l).dropWhile p = l := by
  induction a with
  | nil =>
    cases l with
    | nil => rfl
    | cons c cs =>
      have hc : p c = false := hl
      simp [List.dropWhile_cons, hc]
  | cons x xs ih =>
    have hx : p x = true := ha x (by simp)
    simp [List.dropWhile_cons, hx, ih (fun c hc => ha c (by simp [hc]))]

lemma headNot_dropWhile (p : Char → Bool) (l : List Char) :
    headNot p (l.dropWhile p) := by
  induction l with
  | nil => trivial
  | cons x xs ih =>
    rcases hx : p x
    · rw [List.dropWhile_cons, hx]
      simp only [Bool.false_eq_true, if_false]
      exact hx
    · rw [List.dropWhile_cons, hx]
      simpa using ih

lemma skipWs_all_append (a l : List Char) (ha : WsL a) (hl : headNot wsChar l) :
    skipWs (a ++ l) = l :=
  dropWhile_all_append a l ha hl

/-- The first character of `udecStr d f` is the (digit) first character
of `d`. -/
lemma udecStr_cons (d f : List Char) (hd : DigitsL d) :
    ∃ x xs, udecStr d f = x :: xs ∧ digitChar x = true := by
  rcases List.exists_cons_of_ne_nil hd.1 with ⟨x, xs, hx⟩
  have hxd : digitChar x = true := by
    subst hx
    exact hd.2 x (by simp)
  unfold udecStr
  rcases hf : f.isEmpty
  · exact ⟨x, xs ++ '.' :: f, by simp [hx], hxd⟩
  · exact ⟨x, xs, by simp [hx], hxd⟩

lemma sep_headNot_digit (a Y : List Char) (ha : WsL a) :
    headNot digitChar (a ++ ',' :: Y) := by
  cases a with
  | nil => show digitChar ',' = false; decide
  | cons x xs => exact wsChar_not_digit (ha x (by simp))

lemma sep_headNe_dot (a Y : List Char) (ha : WsL a) :
    headNe '.' (a ++ ',' :: Y) := by
  cases a with
  | nil => show ',' ≠ '.'; decide
  | cons x xs => exact wsChar_ne_dot (ha x (by simp))

lemma headNot_ws_digits_append (d X : List Char) (hd : DigitsL d) :
    headNot wsChar (d ++ X) := by
  rcases List.exists_cons_of_ne_nil hd.1 with ⟨x, xs, hx⟩
  subst hx
  exact digitChar_not_ws (hd.2 x (by simp))

lemma headNot_ws_udecStr_append (d f X : List Char) (hd : DigitsL d) :
    headNot wsChar (udecStr d f ++ X) := by
  obtain ⟨x, xs, hx, hxd⟩ := udecStr_cons d f hd
  rw [hx]
  exact digitChar_not_ws hxd

lemma headNot_ws_sgn_append (n : Bool) (d X : List Char) (hd : DigitsL d) :
    headNot wsChar (sgn n ++ d ++ X) := by
  cases n
  · show headNot wsChar ([] ++ d ++ X)
    exact headNot_ws_digits_append d X hd
  · show wsChar '-' = false
    decide

lemma headNot_ws_sgn_udecStr_append (n : Bool) (d f X : List Char) (hd : DigitsL d) :
    headNot wsChar (sgn n ++ udecStr d f ++ X) := by
  cases n
  · show headNot wsChar ([] ++ udecStr d f ++ X)
    exact headNot_ws_udecStr_append d f X hd
  · show wsChar '-' = false
    decide

lemma headNe_dash_digits (d X : List Char) (hd : DigitsL d) :
    headNe '-' (d ++ X) := by
  rcases List.exists_cons_of_ne_nil hd.1 with ⟨x, xs, hx⟩
  subst hx
  exact digitChar_ne_dash (hd.2 x (by simp))

lemma headNe_dash_udecStr (d f X : List Char) (hd : DigitsL d) :
    headNe '-' (udecStr d f ++ X) := by
  obtain ⟨x, xs, hx, hxd⟩ := udecStr_cons d f hd
  rw [hx]
  exact digitChar_ne_dash hxd

lemma pDigits_exact (d l : List Char) (hd : DigitsL d) (hl : headNot digitChar l) :
    pDigits (d ++ l) = some (d, l) := by
  have hne : ¬(d.isEmpty = true) := by
    rcases List.exists_cons_of_ne_nil hd.1 with ⟨x, xs, hx⟩
    subst hx
    simp
  unfold pDigits
  rw [takeWhile_all_append d l hd.2 hl, dropWhile_all_append d l hd.2 hl, if_neg hne]

lemma pDigits_sound {cs d r : List Char} (h : pDigits cs = some (d, r)) :
    cs = d ++ r ∧ DigitsL d ∧ headNot digitChar r := by
  unfold pDigits at h
  by_cases he : (cs.takeWhile digitChar).isEmpty = true
  · rw [if_pos he] at h
    cases h
  · rw [if_neg he] at h
    simp only [Option.some.injEq, Prod.mk.injEq] at h
    obtain ⟨h1, h2⟩ := h
    subst h1
    subst h2
    refine ⟨(List.takeWhile_append_dropWhile digitChar cs).symm, ⟨?_, ?_⟩,
      headNot_dropWhile _ _⟩
    · intro hnil
      rw [hnil] at he
      exact he rfl
    · intro c hc
      exact List.mem_takeWhile_imp hc

lemma pDigits_isSome_cons (x : Char) (xs : List Char) (hx : digitChar x = true) :
    ∃ d r, pDigits (x :: xs) = some (d, r) := by
  unfold pDigits
  rw [List.takeWhile_cons, if_pos hx]
  refine ⟨x :: xs.takeWhile digitChar, (x :: xs).dropWhile digitChar, ?_⟩
  simp

lemma pUDec_exact (d f l : List Char) (hd : DigitsL d) (hf : f = [] ∨ DigitsL f)
    (hl : headNot digitChar l) (hl2 : headNe '.' l) :
    pUDec (udecStr d f ++ l) = some ((d, f), l) := by
  rcases hf with hf | hf
  · subst hf
    have h1 : pDigits (udecStr d [] ++ l) = some (d, l) := by
      unfold udecStr
      simpa using pDigits_exact d l hd hl
    unfold pUDec
    rw [h1]
    cases l with
    | nil => rfl
    | cons c cs =>
      have hc : ¬(c = '.') := hl2
      simp [hc]
  · have hfe : ¬(f.isEmpty = true) := by
      rcases List.exists_cons_of_ne_nil hf.1 with ⟨x, xs, hx⟩
      subst hx
      simp
    have hstr : udecStr d f ++ l = d ++ '.' :: (f ++ l) := by
      unfold udecStr
      rw [if_neg hfe]
      simp
    have h1 : pDigits (udecStr d f ++ l) = some (d, '.' :: (f ++ l)) := by
      rw [hstr]
      exact pDigits_exact d ('.' :: (f ++ l)) hd (by show digitChar '.' = false; decide)
    have h2 : pDigits (f ++ l) = some (f, l) := pDigits_exact f l hf hl
    unfold pUDec
    rw [h1]
    simp [h2]

lemma pUDec_sound {cs d f r : List Char} (h : pUDec cs = some ((d, f), r)) :
    DigitsL d ∧ (f = [] ∨ DigitsL f) ∧ cs = udecStr d f ++ r := by
  unfold pUDec at h
  rcases hp : pDigits cs with - | ⟨d0, r0⟩
  · rw [hp] at h
    cases h
  · rw [hp] at h
    obtain ⟨hcs, hd0, hr0⟩ := pDigits_sound hp
    rcases r0 with - | ⟨c, r2⟩
    · simp only [Option.some.injEq, Prod.mk.injEq] at h
      obtain ⟨⟨h1, h2⟩, h3⟩ := h
      subst h1; subst h2; subst h3
      exact ⟨hd0, Or.inl rfl, by simpa [udecStr] using hcs⟩
    · by_cases hc : c = '.'
      · subst hc
        rcases hp2 : pDigits r2 with - | ⟨f0, r3⟩
        · simp only [hp2, eq_self_iff_true, if_true, Option.some.injEq,
            Prod.mk.injEq] at h
          obtain ⟨⟨h1, h2⟩, h3⟩ := h
          subst h1; subst h2; subst h3
          exact ⟨hd0, Or.inl rfl, by simpa [udecStr] using hcs⟩
        · simp only [hp2, eq_self_iff_true, if_true, Option.some.injEq,
            Prod.mk.injEq] at h
          obtain ⟨⟨h1, h2⟩, h3⟩ := h
          subst h1; subst h2; subst h3
          obtain ⟨hr2, hf0, hr3⟩ := pDigits_sound hp2
          refine ⟨hd0, Or.inr hf0, ?_⟩
          have hfe : ¬(f0.isEmpty = true) := by
            rcases List.exists_cons_of_ne_nil hf0.1 with ⟨x, xs, hx⟩
            subst hx
            simp
          rw [hcs, hr2]
          unfold udecStr
          rw [if_neg hfe]
          simp
      · simp only [if_neg hc, Option.some.injEq, Prod.mk.injEq] at h
        obtain ⟨⟨h1, h2⟩, h3⟩ := h
        subst h1; subst h2; subst h3
        exact ⟨hd0, Or.inl rfl, by simpa [udecStr] using hcs⟩

lemma pUDec_isSome_cons (x : Char) (xs : List Char) (hx : digitChar x = true) :
    ∃ g r, pUDec (x :: xs) = some (g, r) := by
  unfold pUDec
  obtain ⟨d, r, hp⟩ := pDigits_isSome_cons x xs hx
  rw [hp]
  rcases r with - | ⟨c, r2⟩
  · exact ⟨_, _, rfl⟩
  · by_cases hc : c = '.'
    · subst hc
      rcases hp2 : pDigits r2 with - | ⟨f0, r3⟩ <;> simp [hp2]
    · simp [hc]

lemma pComma_exact (a b Y : List Char) (ha : WsL a) (hb : WsL b)
    (hY : headNot wsChar Y) :
    pComma (a ++ ',' :: (b ++ Y)) = some Y := by
  unfold pComma
  have h1 : skipWs (a ++ ',' :: (b ++ Y)) = ',' :: (b ++ Y) :=
    skipWs_all_append a (',' :: (b ++ Y)) ha (by show wsChar ',' = false; decide)
  rw [h1]
  simp [skipWs_all_append b Y hb hY]

lemma pComma_sound {cs r : List Char} (h : pComma cs = some r) :
    ∃ a b, WsL a ∧ WsL b ∧ cs = a ++ ',' :: (b ++ r) ∧ headNot wsChar r := by
  unfold pComma at h
  rcases hs : skipWs cs with - | ⟨c, r0⟩
  · rw [hs] at h
    cases h
  · rw [hs] at h
    by_cases hc : c = ','
    · subst hc
      simp only at h
      rw [if_pos trivial] at h
      have hdr : r0.dropWhile wsChar = r := by
        have h2 : skipWs r0 = r := by
          injection h
        exact h2
      have hds : cs.dropWhile wsChar = ',' :: r0 := hs
      refine ⟨cs.takeWhile wsChar, r0.takeWhile wsChar,
        (fun c hc => List.mem_takeWhile_imp hc),
        (fun c hc => List.mem_takeWhile_imp hc), ?_, ?_⟩
      · conv_lhs => rw [← List.takeWhile_append_dropWhile wsChar cs]
        rw [hds]
        have h3 : r0 = r0.takeWhile wsChar ++ (r0.dropWhile wsChar) :=
          (List.takeWhile_append_dropWhile wsChar r0).symm
        rw [hdr] at h3
        rw [← h3]
      · rw [← hdr]
        exact headNot_dropWhile _ _
    · simp [hc] at h

lemma pSign_not_dash (cs : List Char) (h : headNe '-' cs) :
    pSign cs = (false, cs) := by
  cases cs with
  | nil => rfl
  | cons c r =>
    have h2 : ¬(c = '-') := h
    unfold pSign
    simp [h2]

lemma pSign_dash (cs : List Char) : pSign ('-' :: cs) = (true, cs) := by
  unfold pSign
  simp

lemma pSInt_exact (neg : Bool) (d l : List Char) (hd : DigitsL d)
    (hl : headNot digitChar l) :
    pSInt (sgn neg ++ d ++ l) = some (intVal neg d, l) := by
  cases neg
  · have h0 : sgn false ++ d ++ l = d ++ l := by simp [sgn]
    rw [h0]
    unfold pSInt
    rw [pSign_not_dash (d ++ l) (headNe_dash_digits d l hd)]
    simp [pDigits_exact d l hd hl]
  · have h0 : sgn true ++ d ++ l = '-' :: (d ++ l) := by simp [sgn]
    rw [h0]
    unfold pSInt
    rw [pSign_dash (d ++ l)]
    simp [pDigits_exact d l hd hl]

lemma pSInt_sound {cs : List Char} {v : ℤ} {r : List Char}
    (h : pSInt cs = some (v, r)) :
    ∃ neg d, DigitsL d ∧ cs = sgn neg ++ d ++ r ∧ v = intVal neg d ∧
      headNot digitChar r := by
  unfold pSInt at h
  rcases cs with - | ⟨c, cs2⟩
  · simp [pSign, pDigits] at h
  · by_cases hc : c = '-'
    · subst hc
      rw [pSign_dash cs2] at h
      simp only at h
      rcases hp : pDigits cs2 with - | ⟨d0, r2⟩
      · simp [hp] at h
      · rw [hp] at h
        simp only [Option.some.injEq, Prod.mk.injEq] at h
        obtain ⟨h1, h2⟩ := h
        subst h2
        obtain ⟨hcs, hd0, hr⟩ := pDigits_sound hp
        exact ⟨true, d0, hd0, by simp [sgn, hcs], h1.symm, hr⟩
    · rw [pSign_not_dash (c :: cs2) hc] at h
      simp only at h
      rcases hp : pDigits (c :: cs2) with - | ⟨d0, r2⟩
      · simp [hp] at h
      · rw [hp] at h
        simp only [Option.some.injEq, Prod.mk.injEq] at h
        obtain ⟨h1, h2⟩ := h
        subst h2
        obtain ⟨hcs, hd0, hr⟩ := pDigits_sound hp
        exact ⟨false, d0, hd0, by simp [sgn, hcs], h1.symm, hr⟩

lemma pSDec_exact (neg : Bool) (d f l : List Char) (hd : DigitsL d)
    (hf : f = [] ∨ DigitsL f) (hl : headNot digitChar l) (hl2 : headNe '.' l) :
    pSDec (sgn neg ++ udecStr d f ++ l) = some (sdecVal neg d f, l) := by
  cases neg
  · have h0 : sgn false ++ udecStr d f ++ l = udecStr d f ++ l := by simp [sgn]
    rw [h0]
    unfold pSDec
    rw [pSign_not_dash (udecStr d f ++ l) (headNe_dash_udecStr d f l hd)]
    simp [pUDec_exact d f l hd hf hl hl2]
  · have h0 : sgn true ++ udecStr d f ++ l = '-' :: (udecStr d f ++ l) := by
      simp [sgn]
    rw [h0]
    unfold pSDec
    rw [pSign_dash (udecStr d f ++ l)]
    simp [pUDec_exact d f l hd hf hl hl2]

lemma pSDec_sound {cs : List Char} {v : ℚ} {r : List Char}
    (h : pSDec cs = some (v, r)) :
    ∃ neg d f, DigitsL d ∧ (f = [] ∨ DigitsL f) ∧
      cs = sgn neg ++ udecStr d f ++ r ∧ v = sdecVal neg d f := by
  unfold pSDec at h
  rcases cs with - | ⟨c, cs2⟩
  · simp [pSign, pUDec, pDigits] at h
  · by_cases hc : c = '-'
    · subst hc
      rw [pSign_dash cs2] at h
      simp only at h
      rcases hp : pUDec cs2 with - | ⟨⟨d0, f0⟩, r2⟩
      · simp [hp] at h
      · rw [hp] at h
        simp only [Option.some.injEq, Prod.mk.injEq] at h
        obtain ⟨h1, h2⟩ := h
        subst h2
        obtain ⟨hd0, hf0, hcs⟩ := pUDec_sound hp
        exact ⟨true, d0, f0, hd0, hf0, by simp [sgn, hcs], h1.symm⟩
    · rw [pSign_not_dash (c :: cs2) hc] at h
      simp only at h
      rcases hp : pUDec (c :: cs2) with - | ⟨⟨d0, f0⟩, r2⟩
      · simp [hp] at h
      · rw [hp] at h
        simp only [Option.some.injEq, Prod.mk.injEq] at h
        obtain ⟨h1, h2⟩ := h
        subst h2
        obtain ⟨hd0, hf0, hcs⟩ := pUDec_sound hp
        exact ⟨false, d0, f0, hd0, hf0, by simp [sgn, hcs], h1.symm⟩

lemma pSDec_isSome (neg : Bool) (d f l : List Char) (hd : DigitsL d) :
    ∃ v r, pSDec (sgn neg ++ udecStr d f ++ l) = some (v, r) := by
  obtain ⟨x, xs, hx, hxd⟩ := udecStr_cons d f hd
  cases neg
  · have h0 : sgn false ++ udecStr d f ++ l = x :: (xs ++ l) := by
      simp [sgn, hx]
    rw [h0]
    unfold pSDec
    rw [pSign_not_dash (x :: (xs ++ l)) (digitChar_ne_dash hxd)]
    obtain ⟨g, r, hp⟩ := pUDec_isSome_cons x (xs ++ l) hxd
    rw [hp]
    exact ⟨_, _, rfl⟩
  · have h0 : sgn true ++ udecStr d f ++ l = '-' :: (x :: (xs ++ l)) := by
      simp [sgn, hx]
    rw [h0]
    unfold pSDec
    rw [pSign_dash (x :: (xs ++ l))]
    obtain ⟨g, r, hp⟩ := pUDec_isSome_cons x (xs ++ l) hxd
    rw [hp]
    exact ⟨_, _, rfl⟩

/-- Running `parseRowL` on a line of the shape
`ws f1 sep f2 sep f3 sep f4 sep f5 sep f6 sep f7 rest` consumes the first
six fields exactly and hands whatever starts at the seventh field (plus
any trailing text) to the last group. -/
lemma parseRowL_structure
    (w0 d1 f1 a1 b1 d2 a2 b2 d3 a3 b3 d4 a4 b4 d5 a5 b5 d6 a6 b6 d7 f7
      rest : List Char) (n3 n4 n5 n6 n7 : Bool)
    (hw0 : WsL w0) (hd1 : DigitsL d1) (hf1 : f1 = [] ∨ DigitsL f1)
    (ha1 : WsL a1) (hb1 : WsL b1) (hd2 : DigitsL d2)
    (ha2 : WsL a2) (hb2 : WsL b2) (hd3 : DigitsL d3)
    (ha3 : WsL a3) (hb3 : WsL b3) (hd4 : DigitsL d4)
    (ha4 : WsL a4) (hb4 : WsL b4) (hd5 : DigitsL d5)
    (ha5 : WsL a5) (hb5 : WsL b5) (hd6 : DigitsL d6)
    (ha6 : WsL a6) (hb6 : WsL b6) (hd7 : DigitsL d7) :
    parseRowL (w0 ++ (udecStr d1 f1 ++ (a1 ++ ',' :: (b1 ++ (d2 ++ (a2 ++ ',' ::
      (b2 ++ (sgn n3 ++ d3 ++ (a3 ++ ',' :: (b3 ++ (sgn n4 ++ d4 ++ (a4 ++ ',' ::
      (b4 ++ (sgn n5 ++ d5 ++ (a5 ++ ',' :: (b5 ++ (sgn n6 ++ d6 ++ (a6 ++ ',' ::
      (b6 ++ (sgn n7 ++ udecStr d7 f7 ++ rest)))))))))))))))))))) =
      match pSDec (sgn n7 ++ udecStr d7 f7 ++ rest) with
      | none => none
      | some (g7, _) =>
        some ⟨udecVal d1 f1, natVal d2, intVal n3 d3, intVal n4 d4, intVal n5 d5,
          intVal n6 d6, g7⟩ := by
  set T7 := sgn n7 ++ udecStr d7 f7 ++ rest with hT7
  set S6 := a6 ++ ',' :: (b6 ++ T7) with hS6
  set T6 := sgn n6 ++ d6 ++ S6 with hT6
  set S5 := a5 ++ ',' :: (b5 ++ T6) with hS5
  set T5 := sgn n5 ++ d5 ++ S5 with hT5
  set S4 := a4 ++ ',' :: (b4 ++ T5) with hS4
  set T4 := sgn n4 ++ d4 ++ S4 with hT4
  set S3 := a3 ++ ',' :: (b3 ++ T4) with hS3
  set T3 := sgn n3 ++ d3 ++ S3 with hT3
  set S2 := a2 ++ ',' :: (b2 ++ T3) with hS2
  set T2 := d2 ++ S2 with hT2
  set S1 := a1 ++ ',' :: (b1 ++ T2) with hS1
  set T1 := udecStr d1 f1 ++ S1 with hT1
  have e0 : skipWs (w0 ++ T1) = T1 :=
    skipWs_all_append w0 T1 hw0 (headNot_ws_udecStr_append d1 f1 S1 hd1)
  have e1 : pUDec T1 = some ((d1, f1), S1) :=
    pUDec_exact d1 f1 S1 hd1 hf1 (sep_headNot_digit a1 (b1 ++ T2) ha1)
      (sep_headNe_dot a1 (b1 ++ T2) ha1)
  have e2 : pComma S1 = some T2 :=
    pComma_exact a1 b1 T2 ha1 hb1 (headNot_ws_digits_append d2 S2 hd2)
  have e3 : pDigits T2 = some (d2, S2) :=
    pDigits_exact d2 S2 hd2 (sep_headNot_digit a2 (b2 ++ T3) ha2)
  have e4 : pComma S2 = some T3 :=
    pComma_exact a2 b2 T3 ha2 hb2 (headNot_ws_sgn_append n3 d3 S3 hd3)
  have e5 : pSInt T3 = some (intVal n3 d3, S3) :=
    pSInt_exact n3 d3 S3 hd3 (sep_headNot_digit a3 (b3 ++ T4) ha3)
  have e6 : pComma S3 = some T4 :=
    pComma_exact a3 b3 T4 ha3 hb3 (headNot_ws_sgn_append n4 d4 S4 hd4)
  have e7 : pSInt T4 = some (intVal n4 d4, S4) :=
    pSInt_exact n4 d4 S4 hd4 (sep_headNot_digit a4 (b4 ++ T5) ha4)
  have e8 : pComma S4 = some T5 :=
    pComma_exact a4 b4 T5 ha4 hb4 (headNot_ws_sgn_append n5 d5 S5 hd5)
  have e9 : pSInt T5 = some (intVal n5 d5, S5) :=
    pSInt_exact n5 d5 S5 hd5 (sep_headNot_digit a5 (b5 ++ T6) ha5)
  have e10 : pComma S5 = some T6 :=
    pComma_exact a5 b5 T6 ha5 hb5 (headNot_ws_sgn_append n6 d6 S6 hd6)
  have e11 : pSInt T6 = some (intVal n6 d6, S6) :=
    pSInt_exact n6 d6 S6 hd6 (sep_headNot_digit a6 (b6 ++ T7) ha6)
  have e12 : pComma S6 = some T7 :=
    pComma_exact a6 b6 T7 ha6 hb6 (headNot_ws_sgn_udecStr_append n7 d7 f7 rest hd7)
  simp only [parseRowL, e0, e1, e2, e3, e4, e5, e6, e7, e8, e9, e10, e11, e12]

/-- A field separator: optional whitespace, a comma, optional whitespace. -/
def SepTok (s : List Char) : Prop :=
  ∃ a b, WsL a ∧ WsL b ∧ s = a ++ ',' :: b

/-- A non-negative decimal field (integer or fractional). -/
def UDecTok (t : List Char) : Prop :=
  ∃ d f, DigitsL d ∧ (f = [] ∨ DigitsL f) ∧ t = udecStr d f

/-- A signed integer field. -/
def SIntTok (t : List Char) : Prop :=
  ∃ neg d, DigitsL d ∧ t = sgn neg ++ d

/-- A signed decimal field (integer or fractional). -/
def SDecTok (t : List Char) : Prop :=
  ∃ neg d f, DigitsL d ∧ (f = [] ∨ DigitsL f) ∧ t = sgn neg ++ udecStr d f

/-- The specification's row grammar, as a prefix shape: leading
whitespace, then 7 comma-separated numeric fields — a non-negative
decimal, a non-negative integer, four signed integers and a signed
decimal, whitespace around each field ignored — followed by arbitrary
trailing text. -/
def RowShape (cs : List Char) : Prop :=
  ∃ w0 t1 s1 t2 s2 t3 s3 t4 s4 t5 s5 t6 s6 t7 rest,
    WsL w0 ∧ UDecTok t1 ∧ SepTok s1 ∧ DigitsL t2 ∧ SepTok s2 ∧ SIntTok t3 ∧
    SepTok s3 ∧ SIntTok t4 ∧ SepTok s4 ∧ SIntTok t5 ∧ SepTok s5 ∧ SIntTok t6 ∧
    SepTok s6 ∧ SDecTok t7 ∧
    cs = w0 ++ t1 ++ s1 ++ t2 ++ s2 ++ t3 ++ s3 ++ t4 ++ s4 ++ t5 ++ s5 ++ t6 ++
      s6 ++ t7 ++ rest

lemma parseRowL_sound {cs : List Char} {row : DataRow}
    (h : parseRowL cs = some row) : RowShape cs := by
  unfold parseRowL at h
  rcases h1 : pUDec (skipWs cs) with - | ⟨⟨d1, f1⟩, m1⟩
  · rw [h1] at h
    cases h
  · simp only [h1] at h
    rcases h2 : pComma m1 with - | m2
    · rw [h2] at h
      cases h
    · simp only [h2] at h
      rcases h3 : pDigits m2 with - | ⟨d2, m3⟩
      · rw [h3] at h
        cases h
      · simp only [h3] at h
        rcases h4 : pComma m3 with - | m4
        · rw [h4] at h
          cases h
        · simp only [h4] at h
          rcases h5 : pSInt m4 with - | ⟨v3, m5⟩
          · rw [h5] at h
            cases h
          · simp only [h5] at h
            rcases h6 : pComma m5 with - | m6
            · rw [h6] at h
              cases h
            · simp only [h6] at h
              rcases h7 : pSInt m6 with - | ⟨v4, m7⟩
              · rw [h7] at h
                cases h
              · simp only [h7] at h
                rcases h8 : pComma m7 with - | m8
                · rw [h8] at h
                  cases h
                · simp only [h8] at h
                  rcases h9 : pSInt m8 with - | ⟨v5, m9⟩
                  · rw [h9] at h
                    cases h
                  · simp only [h9] at h
                    rcases h10 : pComma m9 with - | m10
                    · rw [h10] at h
                      cases h
                    · simp only [h10] at h
                      rcases h11 : pSInt m10 with - | ⟨v6, m11⟩
                      · rw [h11] at h
                        cases h
                      · simp only [h11] at h
                        rcases h12 : pComma m11 with - | m12
                        · rw [h12] at h
                          cases h
                        · simp only [h12] at h
                          rcases h13 : pSDec m12 with - | ⟨v7, m13⟩
                          · rw [h13] at h
                            cases h
                          · obtain ⟨hud1, huf1, hueq⟩ := pUDec_sound h1
                            obtain ⟨a1, b1, ha1, hb1, hc1, -⟩ := pComma_sound h2
                            obtain ⟨hdeq, hdd2, -⟩ := pDigits_sound h3
                            obtain ⟨a2, b2, ha2, hb2, hc2, -⟩ := pComma_sound h4
                            obtain ⟨n3, dd3, hd3, hs3, -, -⟩ := pSInt_sound h5
                            obtain ⟨a3, b3, ha3, hb3, hc3, -⟩ := pComma_sound h6
                            obtain ⟨n4, dd4, hd4, hs4, -, -⟩ := pSInt_sound h7
                            obtain ⟨a4, b4, ha4, hb4, hc4, -⟩ := pComma_sound h8
                            obtain ⟨n5, dd5, hd5, hs5, -, -⟩ := pSInt_sound h9
                            obtain ⟨a5, b5, ha5, hb5, hc5, -⟩ := pComma_sound h10
                            obtain ⟨n6, dd6, hd6, hs6, -, -⟩ := pSInt_sound h11
                            obtain ⟨a6, b6, ha6, hb6, hc6, -⟩ := pComma_sound h12
                            obtain ⟨n7, dd7, ff7, hd7, hf7, hs7, -⟩ := pSDec_sound h13
                            have hw : cs = cs.takeWhile wsChar ++ skipWs cs :=
                              (List.takeWhile_append_dropWhile wsChar cs).symm
                            refine ⟨cs.takeWhile wsChar, udecStr d1 f1,
                              a1 ++ ',' :: b1, d2, a2 ++ ',' :: b2,
                              sgn n3 ++ dd3, a3 ++ ',' :: b3,
                              sgn n4 ++ dd4, a4 ++ ',' :: b4,
                              sgn n5 ++ dd5, a5 ++ ',' :: b5,
                              sgn n6 ++ dd6, a6 ++ ',' :: b6,
                              sgn n7 ++ udecStr dd7 ff7, m13,
                              (fun c hc => List.mem_takeWhile_imp hc),
                              ⟨d1, f1, hud1, huf1, rfl⟩,
                              ⟨a1, b1, ha1, hb1, rfl⟩, hdd2,
                              ⟨a2, b2, ha2, hb2, rfl⟩,
                              ⟨n3, dd3, hd3, rfl⟩,
                              ⟨a3, b3, ha3, hb3, rfl⟩,
                              ⟨n4, dd4, hd4, rfl⟩,
                              ⟨a4, b4, ha4, hb4, rfl⟩,
                              ⟨n5, dd5, hd5, rfl⟩,
                              ⟨a5, b5, ha5, hb5, rfl⟩,
                              ⟨n6, dd6, hd6, rfl⟩,
                              ⟨a6, b6, ha6, hb6, rfl⟩,
                              ⟨n7, dd7, ff7, hd7, hf7, rfl⟩, ?_⟩
                            conv_lhs => rw [hw]
                            rw [hueq, hc1, hdeq, hc2, hs3, hc3, hs4, hc4,
                              hs5, hc5, hs6, hc6, hs7]
                            simp [List.append_assoc]

/-- C3 counterexample: a line with extra text after a valid 7-field
prefix is accepted by `parse_row` (the regex is unanchored on the
right), while the claim says such a line yields `None`. -/
theorem parse_row_accepts_trailing_text :
    parse_row "0,0,0,0,0,0,0,junk" = some ⟨0, 0, 0, 0, 0, 0, 0⟩ := by
  with_unfolding_all decide

/-- C3 amended: `parse_row` returns a DataRow exactly when the line
BEGINS with 7 comma-separated numeric fields of the required shapes
(whitespace around each field ignored): a non-negative decimal, a
non-negative integer, four signed integers and a signed decimal.  Any
trailing text after the seventh field — including extra fields — is
permitted and ignored, not rejected. -/
theorem parse_row_isSome_iff_rowShape (s : String) :
    (parse_row s).isSome = true ↔ RowShape s.toList := by
  unfold parse_row
  constructor
  · intro h
    rcases hv : parseRowL s.toList with - | row
    · rw [hv] at h
      cases h
    · exact parseRowL_sound hv
  · rintro ⟨w0, t1, s1, t2, s2, t3, s3, t4, s4, t5, s5, t6, s6, t7, rest,
      hw0, ⟨d1, f1, hd1, hf1, ht1⟩, ⟨a1, b1, ha1, hb1, hs1⟩, ht2,
      ⟨a2, b2, ha2, hb2, hs2⟩, ⟨n3, d3, hd3, ht3⟩, ⟨a3, b3, ha3, hb3, hs3⟩,
      ⟨n4, d4, hd4, ht4⟩, ⟨a4, b4, ha4, hb4, hs4⟩, ⟨n5, d5, hd5, ht5⟩,
      ⟨a5, b5, ha5, hb5, hs5⟩, ⟨n6, d6, hd6, ht6⟩, ⟨a6, b6, ha6, hb6, hs6⟩,
      ⟨n7, d7, f7, hd7, hf7, ht7⟩, hcs⟩
    subst ht1; subst hs1; subst ht3; subst hs2; subst ht4; subst hs3
    subst ht5; subst hs4; subst ht6; subst hs5; subst hs6; subst ht7
    rw [hcs]
    have hmain := parseRowL_structure w0 d1 f1 a1 b1 t2 a2 b2 d3 a3 b3 d4 a4 b4
      d5 a5 b5 d6 a6 b6 d7 f7 rest n3 n4 n5 n6 n7 hw0 hd1 hf1 ha1 hb1 ht2 ha2
      hb2 hd3 ha3 hb3 hd4 ha4 hb4 hd5 ha5 hb5 hd6 ha6 hb6 hd7
    have harg : w0 ++ udecStr d1 f1 ++ (a1 ++ ',' :: b1) ++ t2 ++
        (a2 ++ ',' :: b2) ++ (sgn n3 ++ d3) ++ (a3 ++ ',' :: b3) ++
        (sgn n4 ++ d4) ++ (a4 ++ ',' :: b4) ++ (sgn n5 ++ d5) ++
        (a5 ++ ',' :: b5) ++ (sgn n6 ++ d6) ++ (a6 ++ ',' :: b6) ++
        (sgn n7 ++ udecStr d7 f7) ++ rest =
        w0 ++ (udecStr d1 f1 ++ (a1 ++ ',' :: (b1 ++ (t2 ++ (a2 ++ ',' ::
        (b2 ++ (sgn n3 ++ d3 ++ (a3 ++ ',' :: (b3 ++ (sgn n4 ++ d4 ++
        (a4 ++ ',' :: (b4 ++ (sgn n5 ++ d5 ++ (a5 ++ ',' :: (b5 ++
        (sgn n6 ++ d6 ++ (a6 ++ ',' :: (b6 ++ (sgn n7 ++ udecStr d7 f7 ++
        rest))))))))))))))))))) := by
      simp [List.append_assoc]
    rw [harg, hmain]
    obtain ⟨v, r, hp⟩ := pSDec_isSome n7 d7 f7 rest hd7
    rw [hp]
    rfl

theorem parse_row_isSome_iff_rowShape_witness :
    RowShape ("0,0,0,0,0,0,0" : String).toList :=
  (parse_row_isSome_iff_rowShape "0,0,0,0,0,0,0").mp (by decide)

/-- Render a DataRow with the given decimal presentations of its field
values as a comma-separated line in field order (no padding): a
non-negative decimal `d1.f1`, a non-negative integer `d2`, four signed
integers and a signed decimal. -/
def renderRow (d1 f1 d2 : List Char) (n3 : Bool) (d3 : List Char) (n4 : Bool)
    (d4 : List Char) (n5 : Bool) (d5 : List Char) (n6 : Bool) (d6 : List Char)
    (n7 : Bool) (d7 f7 : List Char) : List Char :=
  udecStr d1 f1 ++ ',' :: (d2 ++ ',' :: (sgn n3 ++ d3 ++ ',' :: (sgn n4 ++ d4 ++
    ',' :: (sgn n5 ++ d5 ++ ',' :: (sgn n6 ++ d6 ++ ',' ::
    (sgn n7 ++ udecStr d7 f7))))))

/-- C9: rendering a DataRow whose fields have valid (grammar-presentable)
values as a comma-separated line in field order and re-parsing it with
`parse_row` succeeds and recovers all seven field values exactly. -/
theorem row_render_reparse_roundtrip
    (d1 f1 d2 d3 d4 d5 d6 d7 f7 : List Char) (n3 n4 n5 n6 n7 : Bool)
    (hd1 : DigitsL d1) (hf1 : f1 = [] ∨ DigitsL f1) (hd2 : DigitsL d2)
    (hd3 : DigitsL d3) (hd4 : DigitsL d4) (hd5 : DigitsL d5) (hd6 : DigitsL d6)
    (hd7 : DigitsL d7) (hf7 : f7 = [] ∨ DigitsL f7) :
    parse_row (String.mk (renderRow d1 f1 d2 n3 d3 n4 d4 n5 d5 n6 d6 n7 d7 f7)) =
      some ⟨udecVal d1 f1, natVal d2, intVal n3 d3, intVal n4 d4, intVal n5 d5,
        intVal n6 d6, sdecVal n7 d7 f7⟩ := by
  have hnilws : WsL ([] : List Char) := by
    intro c hc
    cases hc
  have hmain := parseRowL_structure [] d1 f1 [] [] d2 [] [] d3 [] [] d4 [] []
    d5 [] [] d6 [] [] d7 f7 [] n3 n4 n5 n6 n7 hnilws hd1 hf1 hnilws hnilws hd2
    hnilws hnilws hd3 hnilws hnilws hd4 hnilws hnilws hd5 hnilws hnilws hd6
    hnilws hnilws hd7
  have hlast : pSDec (sgn n7 ++ udecStr d7 f7 ++ []) =
      some (sdecVal n7 d7 f7, []) :=
    pSDec_exact n7 d7 f7 [] hd7 hf7 trivial trivial
  rw [hlast] at hmain
  simp only [List.nil_append, List.append_nil] at hmain
  unfold parse_row renderRow
  rw [show ∀ cs : List Char, (String.mk cs).toList = cs from fun _ => rfl]
  exact hmain

theorem row_render_reparse_roundtrip_witness :
    DigitsL ['0'] ∧
    parse_row (String.mk (renderRow ['0'] ['1', '0'] ['1', '0', '0'] false
        ['5', '1', '2'] false ['5', '1', '0'] false ['5', '0', '9'] false ['3']
        false ['1'] ['2', '5'])) =
      some ⟨udecVal ['0'] ['1', '0'], natVal ['1', '0', '0'],
        intVal false ['5', '1', '2'], intVal false ['5', '1', '0'],
        intVal false ['5', '0', '9'], intVal false ['3'],
        sdecVal false ['1'] ['2', '5']⟩ :=
  ⟨⟨by decide, by decide⟩,
    row_render_reparse_roundtrip ['0'] ['1', '0'] ['1', '0', '0']
      ['5', '1', '2'] ['5', '1', '0'] ['5', '0', '9'] ['3'] ['1'] ['2', '5']
      false false false false false ⟨by decide, by decide⟩
      (Or.inr ⟨by decide, by decide⟩) ⟨by decide, by decide⟩
      ⟨by decide, by decide⟩ ⟨by decide, by decide⟩ ⟨by decide, by decide⟩
      ⟨by decide, by decide⟩ ⟨by decide, by decide⟩
      (Or.inr ⟨by decide, by decide⟩)⟩
